import Mathlib

/-!
Verification of the scheduling core of the Plano event-planning server:
the dependency-graph builder, cycle detection, topological sort, the
Critical Path Method (CPM) passes, slack and critical-path extraction,
buffer-time calculation, vendor-conflict detection and the greedy
day-scheduling packer.

The embedding follows `app/services/dependency_manager.py`,
`app/models/core.py` and the day packer of
`app/services/timeline_intelligence_engine.py`.

Modelling conventions:
* Python `datetime` and `timedelta` values are exact integer numbers of
  microseconds; both are embedded as `Int` (one unit = one minute in the
  concrete inputs used below; every theorem quantifies over all `Int`s).
* Python `float` (the event complexity score) and `Decimal` (costs) are
  embedded as `ℚ`; the buffer computation, which multiplies a duration by
  fractional percentages, is carried out in `ℚ`.
* Python `dict` (insertion ordered) becomes an association list; Python
  `set` becomes a duplicate-free list (`insertOnce` mirrors `set.add`).
* Fallible code returns `Except String`; each `.error` point corresponds
  to a `raise` (or an uncaught `TypeError` / `KeyError` / `ValueError`)
  in the source.
-/

namespace Plano

/-- `ActivityType` enum of `app/models/enums.py`. -/
inductive ActivityType where
  | ceremony | preparation | catering | entertainment | photography
  | decoration | transportation | cleanup | break_ | networking
deriving DecidableEq, Repr

/-- The `.value` string of each `ActivityType` member. -/
def ActivityType.value : ActivityType → String
  | .ceremony => "ceremony"
  | .preparation => "preparation"
  | .catering => "catering"
  | .entertainment => "entertainment"
  | .photography => "photography"
  | .decoration => "decoration"
  | .transportation => "transportation"
  | .cleanup => "cleanup"
  | .break_ => "break"
  | .networking => "networking"

/-- `Priority` enum of `app/models/enums.py`. -/
inductive Priority where
  | critical | high | medium | low | optional
deriving DecidableEq, Repr

/-- The `.value` string of each `Priority` member. -/
def Priority.value : Priority → String
  | .critical => "critical"
  | .high => "high"
  | .medium => "medium"
  | .low => "low"
  | .optional => "optional"

/-- `Activity` dataclass of `app/models/core.py` (the fields the
scheduling core reads; times are integer time units, cost is `ℚ`). -/
structure Activity where
  id : String
  name : String
  activity_type : ActivityType
  duration : Int
  priority : Priority
  description : String := ""
  required_vendors : List String := []
  estimated_cost : ℚ := 0
  setup_time : Int := 0
  cleanup_time : Int := 0
deriving DecidableEq, Repr

/-- ASCII whitespace, as stripped by Python `str.strip()`. -/
def isSpaceChar (c : Char) : Bool :=
  c == ' ' || c == '\t' || c == '\n' || c == '\r'

/-- Python `not s or not s.strip()`: the string is empty or whitespace
only. -/
def strBlank (s : String) : Bool :=
  s.data.all isSpaceChar

/-- `Activity.validate` of `app/models/core.py`: returns the error list.
Python `not self.id or not self.id.strip()` holds exactly when the id is
empty or whitespace only. -/
def Activity.validate (a : Activity) : List String :=
  (if strBlank a.id then ["Activity ID is required"] else []) ++
  (if strBlank a.name then ["Activity name is required"] else []) ++
  (if a.duration ≤ 0 then ["Duration must be positive"] else []) ++
  (if a.estimated_cost < 0 then ["Estimated cost cannot be negative"] else [])

/-- `Dependency` dataclass of `app/models/core.py`; `dependency_type` is a
plain string in the source, validated against four literals. -/
structure Dependency where
  predecessor_id : String
  successor_id : String
  dependency_type : String
  lag_time : Int := 0
deriving DecidableEq, Repr

/-- `Dependency.validate` of `app/models/core.py`. -/
def Dependency.validate (d : Dependency) : List String :=
  (if d.predecessor_id = "" then ["Predecessor ID is required"] else []) ++
  (if d.successor_id = "" then ["Successor ID is required"] else []) ++
  (if d.predecessor_id = d.successor_id then ["Activity cannot depend on itself"] else []) ++
  (if d.dependency_type = "finish_to_start" ∨ d.dependency_type = "start_to_start" ∨
      d.dependency_type = "finish_to_finish" ∨ d.dependency_type = "start_to_finish"
   then [] else ["Invalid dependency type"])

/-- `DependencyNode` dataclass of `dependency_manager.py`. The Python
`set`s of predecessor/successor ids are duplicate-free lists; the four
optional datetimes start as `None`. -/
structure DependencyNode where
  activity : Activity
  predecessors : List String := []
  successors : List String := []
  earliest_start : Option Int := none
  earliest_finish : Option Int := none
  latest_start : Option Int := none
  latest_finish : Option Int := none
  slack : Int := 0
  is_critical : Bool := false
deriving DecidableEq, Repr

/-- `DependencyNode.total_duration`: setup + duration + cleanup. -/
def DependencyNode.total_duration (n : DependencyNode) : Int :=
  n.activity.setup_time + n.activity.duration + n.activity.cleanup_time

/-- `DependencyGraph` dataclass of `dependency_manager.py`; the node map
is the insertion-ordered association list of the Python dict. -/
structure DependencyGraph where
  nodes : List (String × DependencyNode) := []
  dependencies : List Dependency := []
  critical_path : List String := []
  total_duration : Int := 0
deriving DecidableEq, Repr

/-- The empty graph (`DependencyGraph()`). -/
def DependencyGraph.empty : DependencyGraph := {}

/-- Dict lookup `graph.nodes[id]` as an `Option`. -/
def DependencyGraph.findNode (g : DependencyGraph) (id : String) : Option DependencyNode :=
  (g.nodes.find? (fun p => p.1 == id)).map Prod.snd

/-- The list of node ids, in dict insertion order. -/
def DependencyGraph.keys (g : DependencyGraph) : List String :=
  g.nodes.map Prod.fst

/-- Dict update `graph.nodes[id] = n` for an existing key. -/
def DependencyGraph.updateNode (g : DependencyGraph) (id : String) (n : DependencyNode) :
    DependencyGraph :=
  { g with nodes := g.nodes.map (fun p => if p.1 == id then (p.1, n) else p) }

/-- Python `set.add`: append the element unless already present. -/
def insertOnce (l : List String) (x : String) : List String :=
  if x ∈ l then l else l ++ [x]

/-- `DependencyGraph.add_activity`: insert a fresh node under the
activity's id when the id is absent; otherwise do nothing. The source
performs no validation here. -/
def DependencyGraph.add_activity (g : DependencyGraph) (a : Activity) : DependencyGraph :=
  if (g.findNode a.id).isSome then g
  else { g with nodes := g.nodes ++ [(a.id, { activity := a })] }

/-- `DependencyGraph.add_dependency`: validate the dependency, require
both endpoints to be nodes, then append the edge and update both nodes'
predecessor/successor sets. Each `.error` is a `raise ValueError` in the
source. -/
def DependencyGraph.add_dependency (g : DependencyGraph) (d : Dependency) :
    Except String DependencyGraph :=
  let errors := d.validate
  if errors ≠ [] then
    .error ("Invalid dependency: " ++ String.intercalate ", " errors)
  else if (g.findNode d.predecessor_id).isNone then
    .error ("Predecessor activity \'" ++ d.predecessor_id ++ "\' not found")
  else if (g.findNode d.successor_id).isNone then
    .error ("Successor activity \'" ++ d.successor_id ++ "\' not found")
  else
    let g1 := { g with dependencies := g.dependencies ++ [d] }
    let g2 := match g1.findNode d.predecessor_id with
      | some n => g1.updateNode d.predecessor_id
          { n with successors := insertOnce n.successors d.successor_id }
      | none => g1
    let g3 := match g2.findNode d.successor_id with
      | some n => g2.updateNode d.successor_id
          { n with predecessors := insertOnce n.predecessors d.predecessor_id }
      | none => g2
    .ok g3

/-- The three DFS colors of `has_cycle`. -/
inductive Color where
  | white | gray | black
deriving DecidableEq, Repr

/-- The successor set read by the traversals (`graph.nodes[id].successors`;
for an id that is not a key Python would raise `KeyError`, which is
unreachable for graphs built through `add_activity`/`add_dependency`). -/
def DependencyGraph.nodeSuccs (g : DependencyGraph) (id : String) : List String :=
  match g.findNode id with
  | some n => n.successors
  | none => []

/-- The recursive `dfs` helper of `has_cycle`. `fuel` bounds the nesting
depth of recursive calls; since every nested call is made on a node just
painted gray, a depth of `|nodes| + 1` is never exhausted, so the `0`
case (returning `false` with the colors unchanged) is unreachable at the
fuel `has_cycle` supplies. The successor loop
`for successor_id in …: if dfs(successor_id): return True` is the fold
over the successor list, inert once the flag is set. -/
def dfsVisit (g : DependencyGraph) : Nat → (String → Color) → String →
    Bool × (String → Color)
  | 0, colors, _ => (false, colors)
  | fuel + 1, colors, nodeId =>
    match colors nodeId with
    | .gray => (true, colors)
    | .black => (false, colors)
    | .white =>
      let colors1 := fun x => if x = nodeId then Color.gray else colors x
      let r := (g.nodeSuccs nodeId).foldl
        (fun acc s => if acc.1 then acc else dfsVisit g fuel acc.2 s)
        (false, colors1)
      if r.1 then (true, r.2)
      else (false, fun x => if x = nodeId then Color.black else r.2 x)

/-- The successor loop of `dfsVisit`, as a named function for reasoning. -/
def dfsList (g : DependencyGraph) (fuel : Nat) (acc : Bool × (String → Color))
    (l : List String) : Bool × (String → Color) :=
  l.foldl (fun acc s => if acc.1 then acc else dfsVisit g fuel acc.2 s) acc

/-- `DependencyGraph.has_cycle`: three-color depth-first search over the
nodes in insertion order. -/
def DependencyGraph.has_cycle (g : DependencyGraph) : Bool :=
  (g.keys.foldl
    (fun acc id =>
      if acc.1 then acc
      else if acc.2 id = Color.white then dfsVisit g (g.nodes.length + 1) acc.2 id
      else acc)
    (false, fun _ => Color.white)).1

/-- Lookup in the Kahn in-degree table (`in_degree[id]`). -/
def degOf (deg : List (String × Int)) (id : String) : Option Int :=
  (deg.find? (fun p => p.1 == id)).map Prod.snd

/-- `in_degree[successor_id] -= 1`. -/
def degDec (deg : List (String × Int)) (id : String) : List (String × Int) :=
  deg.map (fun p => if p.1 == id then (p.1, p.2 - 1) else p)

/-- One successor step of Kahn's algorithm: decrement the successor's
in-degree and enqueue it if the count reached zero. (On an id missing
from the table Python would raise `KeyError`; unreachable for graphs
built through the API.) -/
def kahnStep (st : List (String × Int) × List String) (s : String) :
    List (String × Int) × List String :=
  let deg := degDec st.1 s
  if degOf deg s == some 0 then (deg, st.2 ++ [s]) else (deg, st.2)

/-- Potential function bounding the remaining work of Kahn's loop. -/
def phi (deg : List (String × Int)) : Nat :=
  (deg.map (fun p => p.2.toNat)).sum

/-- The `while queue:` loop of `topological_sort`, with fuel. `none`
signals fuel exhaustion, which `kahnFuel_adequate` below shows never
happens at the fuel `topological_sort` supplies. -/
def kahnLoop (g : DependencyGraph) : Nat → List String → List (String × Int) →
    List String → Option (List String)
  | 0, _ :: _, _, _ => none
  | _, [], _, result => some result
  | fuel + 1, q :: rest, deg, result =>
    let st := (g.nodeSuccs q).foldl kahnStep (deg, rest)
    kahnLoop g fuel st.2 st.1 (result ++ [q])

/-- `DependencyGraph.topological_sort`: Kahn's algorithm guarded by the
DFS cycle check; fails when the emitted order misses a node. -/
def DependencyGraph.topological_sort (g : DependencyGraph) : Except String (List String) :=
  if g.has_cycle then
    .error "Cannot perform topological sort: dependency graph has cycles"
  else
    let in_degree : List (String × Int) :=
      g.nodes.map (fun p => (p.1, (p.2.predecessors.length : Int)))
    let queue : List String :=
      (g.nodes.filter (fun p => p.2.predecessors.length == 0)).map Prod.fst
    match kahnLoop g (queue.length + phi in_degree + 1) queue in_degree [] with
    | none => .error "Topological sort failed: dependency graph has cycles"
    | some result =>
      if result.length ≠ g.nodes.length then
        .error "Topological sort failed: dependency graph has cycles"
      else
        .ok result

/-- The edge lookup both CPM passes perform:
`next((d for d in graph.dependencies if d.predecessor_id == pred and
d.successor_id == succ), None)` — the first matching edge in insertion
order, later duplicates ignored. -/
def DependencyGraph.findDep (g : DependencyGraph) (pred succ : String) : Option Dependency :=
  g.dependencies.find? (fun d => d.predecessor_id == pred && d.successor_id == succ)

/-- The candidate earliest start contributed by one predecessor edge of
`_forward_pass` (`.error "TypeError"` marks arithmetic the source would
perform on a `None` field). -/
def forwardCandidate (node pred_node : DependencyNode) (dep : Dependency) :
    Except String Int :=
  if dep.dependency_type = "finish_to_start" then
    match pred_node.earliest_finish with
    | some ef => pure (ef + dep.lag_time)
    | none => .error "TypeError"
  else if dep.dependency_type = "start_to_start" then
    match pred_node.earliest_start with
    | some es0 => pure (es0 + dep.lag_time)
    | none => .error "TypeError"
  else if dep.dependency_type = "finish_to_finish" then
    match pred_node.earliest_finish with
    | some ef => pure (ef + dep.lag_time - node.total_duration)
    | none => .error "TypeError"
  else
    match pred_node.earliest_start with
    | some es0 => pure (es0 + dep.lag_time - node.total_duration)
    | none => .error "TypeError"

/-- The earliest-start computation of one `_forward_pass` visit: the
project start for source nodes, otherwise the running maximum over the
node's predecessors (edges missing from the dependency list are
skipped, matching the source's `if dependency:`). -/
def forwardES (start_time : Int) (g : DependencyGraph) (activity_id : String)
    (node : DependencyNode) : Except String Int :=
  if node.predecessors.isEmpty then pure start_time
  else
    node.predecessors.foldlM (fun acc pred_id =>
      match g.findNode pred_id with
      | none => .error "KeyError"
      | some pred_node =>
        match g.findDep pred_id activity_id with
        | none => pure acc
        | some dep =>
          (forwardCandidate node pred_node dep).bind (fun candidate =>
            pure (max acc candidate))) start_time

/-- One node visit of `_forward_pass`. -/
def forwardVisit (start_time : Int) (g : DependencyGraph) (activity_id : String) :
    Except String DependencyGraph :=
  match g.findNode activity_id with
  | none => .error "KeyError"
  | some node =>
    (forwardES start_time g activity_id node).bind (fun es =>
      .ok (g.updateNode activity_id
        { node with
          earliest_start := some es
          earliest_finish := some (es + node.total_duration) }))

/-- `DependencyManager._forward_pass`: visit the nodes in topological
order, computing earliest start/finish. -/
def forward_pass (g : DependencyGraph) (start_time : Int) : Except String DependencyGraph := do
  let topo ← g.topological_sort
  topo.foldlM (forwardVisit start_time) g

/-- The candidate latest finish contributed by one successor edge of
`_backward_pass` (the mirrored formulas). -/
def backwardCandidate (node succ_node : DependencyNode) (dep : Dependency) :
    Except String Int :=
  if dep.dependency_type = "finish_to_start" then
    match succ_node.latest_start with
    | some ls => pure (ls - dep.lag_time)
    | none => .error "TypeError"
  else if dep.dependency_type = "start_to_start" then
    match succ_node.latest_start with
    | some ls => pure (ls - dep.lag_time + node.total_duration)
    | none => .error "TypeError"
  else if dep.dependency_type = "finish_to_finish" then
    match succ_node.latest_finish with
    | some lf0 => pure (lf0 - dep.lag_time)
    | none => .error "TypeError"
  else
    match succ_node.latest_finish with
    | some lf0 => pure (lf0 - dep.lag_time + node.total_duration)
    | none => .error "TypeError"

/-- The latest-finish computation of one `_backward_pass` visit. -/
def backwardLF (project_end : Int) (g : DependencyGraph) (activity_id : String)
    (node : DependencyNode) : Except String Int :=
  if node.successors.isEmpty then pure project_end
  else
    node.successors.foldlM (fun acc succ_id =>
      match g.findNode succ_id with
      | none => .error "KeyError"
      | some succ_node =>
        match g.findDep activity_id succ_id with
        | none => pure acc
        | some dep =>
          (backwardCandidate node succ_node dep).bind (fun candidate =>
            pure (min acc candidate))) project_end

/-- One node visit of `_backward_pass`. -/
def backwardVisit (project_end : Int) (g : DependencyGraph) (activity_id : String) :
    Except String DependencyGraph :=
  match g.findNode activity_id with
  | none => .error "KeyError"
  | some node =>
    (backwardLF project_end g activity_id node).bind (fun lf =>
      .ok (g.updateNode activity_id
        { node with
          latest_finish := some lf
          latest_start := some (lf - node.total_duration) }))

/-- `DependencyManager._backward_pass`: seed the project end from the
maximum earliest finish (Python `max()` raises `ValueError` on an empty
sequence, hence the `.error` when no node has been forward-passed), then
visit the nodes in reverse topological order. -/
def backward_pass (g : DependencyGraph) : Except String DependencyGraph := do
  let topo ← g.topological_sort
  match (g.nodes.filterMap (fun p => p.2.earliest_finish)).max? with
  | none => .error "ValueError: max() arg is an empty sequence"
  | some project_end => topo.reverse.foldlM (backwardVisit project_end) g

/-- `DependencyManager._calculate_slack`: for every node whose
`latest_start` and `earliest_start` are set (Python datetimes are always
truthy, so the guard is exactly a `None` test), store
`slack = latest_start - earliest_start` and `is_critical ↔ slack == 0`. -/
def calculate_slack (g : DependencyGraph) : DependencyGraph :=
  { g with nodes := g.nodes.map (fun p =>
      match p.2.latest_start, p.2.earliest_start with
      | some ls, some es =>
        (p.1, { p.2 with slack := ls - es, is_critical := decide (ls - es = 0) })
      | _, _ => p) }

/-- The ascending order on sort keys: a missing `earliest_start` sorts as
`datetime.min`, below every set value. -/
def optLe : Option Int → Option Int → Bool
  | none, _ => true
  | some _, none => false
  | some x, some y => x ≤ y

/-- Stable insertion of `x` into a sorted list (the new element goes
after existing elements it ties with). -/
def insertSorted (le : α → α → Bool) (x : α) : List α → List α
  | [] => [x]
  | y :: ys => if le y x then y :: insertSorted le x ys else x :: y :: ys

/-- Stable ascending sort, modelling Python `list.sort`. Only sortedness
and permutation of the result are used by the theorems below. -/
def insertionSort (le : α → α → Bool) : List α → List α
  | [] => []
  | x :: xs => insertSorted le x (insertionSort le xs)

/-- The sort key of `_find_critical_path`:
`graph.nodes[aid].earliest_start or datetime.min`. -/
def DependencyGraph.esKey (g : DependencyGraph) (id : String) : Option Int :=
  (g.findNode id).bind DependencyNode.earliest_start

/-- `DependencyManager._find_critical_path`: the critical node ids,
sorted ascending by earliest start. -/
def find_critical_path (g : DependencyGraph) : List String :=
  let critical_activities := (g.nodes.filter (fun p => p.2.is_critical)).map Prod.fst
  insertionSort (fun a b => optLe (g.esKey a) (g.esKey b)) critical_activities

/-- `DependencyManager.calculate_critical_path`: cycle guard, forward
pass, backward pass, slack, critical path, total project duration. -/
def calculate_critical_path (g : DependencyGraph) (start_time : Int) :
    Except String DependencyGraph := do
  if g.has_cycle then
    .error "Cannot calculate critical path: dependency graph has cycles"
  else
    let g1 ← forward_pass g start_time
    let g2 ← backward_pass g1
    let g3 := calculate_slack g2
    let g4 := { g3 with critical_path := find_critical_path g3 }
    if g4.nodes.isEmpty then pure g4
    else
      match (g4.nodes.filterMap (fun p => p.2.earliest_finish)).max? with
      | none => .error "ValueError: max() arg is an empty sequence"
      | some max_finish => pure { g4 with total_duration := max_finish - start_time }

/-- `EventContext` of `app/models/core.py` (the one field the scheduling
core reads; the Python `float` score is embedded as `ℚ`). -/
structure EventContext where
  complexity_score : ℚ := 0
deriving DecidableEq, Repr

/-- The `priority_multipliers` table of `_initialize_buffer_rules`
(`.get` with default `0.25` in the source; the match is total, so the
default branch is unreachable). -/
def priority_multipliers : Priority → ℚ
  | .critical => 15 / 100
  | .high => 20 / 100
  | .medium => 25 / 100
  | .low => 30 / 100
  | .optional => 35 / 100

/-- `DependencyManager._get_complexity_level`. -/
def get_complexity_level (complexity_score : ℚ) : String :=
  if complexity_score ≤ 3 then "low"
  else if complexity_score ≤ 6 then "medium"
  else if complexity_score ≤ 8 then "high"
  else "very_high"

/-- The `complexity_multipliers` table of `_initialize_buffer_rules`
(a plain dict lookup; any other key would be a `KeyError`, unreachable
since `_get_complexity_level` only produces these four strings). -/
def complexity_multipliers : String → Option ℚ := fun s =>
  if s = "low" then some 1
  else if s = "medium" then some (12 / 10)
  else if s = "high" then some (15 / 10)
  else if s = "very_high" then some 2
  else none

/-- `DependencyManager._get_dependency_level`. -/
def get_dependency_level (dependency_count : Nat) : String :=
  if dependency_count = 0 then "no_dependencies"
  else if dependency_count ≤ 2 then "few_dependencies"
  else if dependency_count ≤ 5 then "many_dependencies"
  else "complex_dependencies"

/-- The `dependency_multipliers` table of `_initialize_buffer_rules`. -/
def dependency_multipliers : String → Option ℚ := fun s =>
  if s = "no_dependencies" then some 1
  else if s = "few_dependencies" then some (11 / 10)
  else if s = "many_dependencies" then some (13 / 10)
  else if s = "complex_dependencies" then some (15 / 10)
  else none

/-- `DependencyManager.calculate_buffer_time`: duration times the
priority percentage, scaled by the complexity and dependency multipliers,
clamped to [15 minutes, 2 hours]. Carried out in `ℚ` (exactly the real
arithmetic the source's float code approximates); times are minutes. -/
def calculate_buffer_time (activity : Activity) (context : EventContext)
    (dependency_count : Nat) : ℚ :=
  let base_buffer_percentage := priority_multipliers activity.priority
  let complexity_level := get_complexity_level context.complexity_score
  let complexity_multiplier := (complexity_multipliers complexity_level).getD 0
  let dependency_level := get_dependency_level dependency_count
  let dependency_multiplier := (dependency_multipliers dependency_level).getD 0
  let base_buffer := (activity.duration : ℚ) * base_buffer_percentage
  let total_multiplier := complexity_multiplier * dependency_multiplier
  let buffer_time := base_buffer * total_multiplier
  let min_buffer : ℚ := 15
  let max_buffer : ℚ := 120
  max min_buffer (min buffer_time max_buffer)

/-- Python dict upsert into the `defaultdict(list)` grouping of
`_check_resource_conflicts`: append `v` to the list under `k`, creating
the key at the back on first sight. -/
def groupAdd (acc : List (String × List (String × DependencyNode))) (k : String)
    (v : String × DependencyNode) : List (String × List (String × DependencyNode)) :=
  if (acc.find? (fun p => p.1 == k)).isSome then
    acc.map (fun p => if p.1 == k then (p.1, p.2 ++ [v]) else p)
  else acc ++ [(k, [v])]

/-- The `vendor_activities` grouping of `_check_resource_conflicts`. -/
def vendorGroups (g : DependencyGraph) : List (String × List (String × DependencyNode)) :=
  g.nodes.foldl
    (fun acc p => p.2.activity.required_vendors.foldl (fun acc v => groupAdd acc v (p.1, p.2)) acc)
    []

/-- The adjacent-pair scan of `_check_resource_conflicts` over one
vendor's activities, already sorted by earliest start. -/
def adjacentConflicts (vendor : String) :
    List (String × DependencyNode) → List String
  | (_, cur) :: (nid, nxt) :: rest =>
    (match cur.earliest_finish, nxt.earliest_start with
     | some ef, some ns =>
       if ef > ns then
         ["Vendor \'" ++ vendor ++ "\' conflict between activities \'" ++
          cur.activity.name ++ "\' and \'" ++ nxt.activity.name ++ "\'"]
       else []
     | _, _ => []) ++ adjacentConflicts vendor ((nid, nxt) :: rest)
  | _ => []

/-- `DependencyManager._check_resource_conflicts`: group the nodes by
required vendor, sort each group of more than one by earliest start, and
flag each adjacent overlapping pair. -/
def check_resource_conflicts (g : DependencyGraph) : List String :=
  (vendorGroups g).foldl
    (fun conflicts vp =>
      if vp.2.length > 1 then
        conflicts ++ adjacentConflicts vp.1
          (insertionSort (fun a b => optLe a.2.earliest_start b.2.earliest_start) vp.2)
      else conflicts)
    []

/-- `DependencyManager.resolve_conflicts`: cycle advisory, negative-slack
advisories (the Python guard `node.slack and node.slack < timedelta(0)`
tests a zero timedelta as falsy), then vendor conflicts. -/
def resolve_conflicts (g : DependencyGraph) : List String :=
  (if g.has_cycle then
    ["Circular dependencies detected - some activities depend on each other"]
   else []) ++
  (g.nodes.filterMap (fun p =>
    if p.2.slack ≠ 0 ∧ p.2.slack < 0 then
      some ("Activity \'" ++ p.2.activity.name ++ "\' is over-constrained with negative slack")
    else none)) ++
  check_resource_conflicts g

/-- Whether `sub` is an initial segment of `l`. -/
def startsWithL : List Char → List Char → Bool
  | _, [] => true
  | [], _ :: _ => false
  | c :: cs, d :: ds => c == d && startsWithL cs ds

/-- Whether `sub` occurs contiguously in `l` (Python `sub in s`). -/
def containsSubL : List Char → List Char → Bool
  | [], sub => sub.isEmpty
  | c :: cs, sub => startsWithL (c :: cs) sub || containsSubL cs sub

/-- Python `pattern in s` substring test. -/
def strContainsSub (s pattern : String) : Bool :=
  containsSubL s.data pattern.data

/-- Python `str.lower()` (ASCII case folding suffices for the ceremony
names matched here). -/
def strToLower (s : String) : String :=
  String.mk (s.data.map Char.toLower)

/-- Dict upsert for the ceremony-name maps of
`_get_cultural_sequence_dependencies` (later activities overwrite). -/
def mapUpsert (acc : List (String × String)) (k v : String) : List (String × String) :=
  if (acc.find? (fun p => p.1 == k)).isSome then
    acc.map (fun p => if p.1 == k then (p.1, v) else p)
  else acc ++ [(k, v)]

/-- The per-activity matching loop of
`_get_cultural_sequence_dependencies`: the first ceremony of the sequence
occurring in the lowercased activity name claims the activity (`break`). -/
def matchCeremonies (sequence : List String) (activities : List Activity) :
    List (String × String) :=
  activities.foldl
    (fun acc a =>
      match sequence.find? (fun c => strContainsSub (strToLower a.name) c) with
      | some c => mapUpsert acc c a.id
      | none => acc)
    []

/-- Consecutive matched ceremonies of a cultural sequence become
finish-to-start edges with the tradition's lag. -/
def sequenceDeps (sequence : List String) (found : List (String × String)) (lag : Int) :
    List Dependency :=
  (sequence.zip sequence.tail).filterMap (fun cp =>
    match (found.find? (fun p => p.1 == cp.1)), (found.find? (fun p => p.1 == cp.2)) with
    | some a, some b =>
      some { predecessor_id := a.2, successor_id := b.2,
             dependency_type := "finish_to_start", lag_time := lag }
    | _, _ => none)

/-- `DependencyManager._get_cultural_sequence_dependencies`: Hindu
sequence with a 2-hour lag, then the Muslim sequence with a 1-hour lag
(lags in minutes). -/
def get_cultural_sequence_dependencies (activities : List Activity) : List Dependency :=
  let hindu_sequence := ["mehendi", "haldi", "sangeet", "wedding", "reception"]
  let muslim_sequence := ["nikkah", "mehndi", "walima"]
  sequenceDeps hindu_sequence (matchCeremonies hindu_sequence activities) 120 ++
  sequenceDeps muslim_sequence (matchCeremonies muslim_sequence activities) 60

/-- `DependencyManager._generate_automatic_dependencies`: the five
deterministic rules (lags in minutes). -/
def generate_automatic_dependencies (activities : List Activity) : List Dependency :=
  let prep_activities := activities.filter (fun a => a.activity_type.value == "preparation")
  let ceremony_activities := activities.filter (fun a => a.activity_type.value == "ceremony")
  let cleanup_activities := activities.filter (fun a => a.activity_type.value == "cleanup")
  let photo_activities := activities.filter (fun a => a.activity_type.value == "photography")
  let catering_activities := activities.filter (fun a => a.activity_type.value == "catering")
  (prep_activities.flatMap (fun prep => ceremony_activities.map (fun ceremony =>
    ({ predecessor_id := prep.id, successor_id := ceremony.id,
       dependency_type := "finish_to_start", lag_time := 15 } : Dependency)))) ++
  (ceremony_activities.flatMap (fun ceremony => cleanup_activities.map (fun cleanup =>
    ({ predecessor_id := ceremony.id, successor_id := cleanup.id,
       dependency_type := "finish_to_start", lag_time := 30 } : Dependency)))) ++
  (photo_activities.flatMap (fun photo => ceremony_activities.filterMap (fun ceremony =>
    if ceremony.priority.value = "critical" ∨ ceremony.priority.value = "high" then
      some ({ predecessor_id := ceremony.id, successor_id := photo.id,
              dependency_type := "start_to_start", lag_time := 0 } : Dependency)
    else none))) ++
  ((catering_activities.zip catering_activities.tail).map (fun cp =>
    ({ predecessor_id := cp.1.id, successor_id := cp.2.id,
       dependency_type := "finish_to_start", lag_time := 30 } : Dependency))) ++
  get_cultural_sequence_dependencies activities

/-- `DependencyManager.create_dependency_graph`: add every activity, then
every automatic dependency (any `add_dependency` failure propagates as
the source's uncaught `ValueError`). -/
def create_dependency_graph (activities : List Activity) : Except String DependencyGraph :=
  let g := activities.foldl DependencyGraph.add_activity DependencyGraph.empty
  (generate_automatic_dependencies activities).foldlM DependencyGraph.add_dependency g

/-- `TimedActivity` of `app/models/core.py`. -/
structure TimedActivity where
  activity : Activity
  start_time : Int
  end_time : Int
  buffer_before : Int := 0
  buffer_after : Int := 0
  contingency_plans : List String := []
deriving DecidableEq, Repr

/-- `TimelineDay` of `app/models/core.py` (dates are integer day
numbers). -/
structure TimelineDay where
  day_number : Int
  date : Int
  activities : List TimedActivity
  estimated_cost : ℚ
  notes : List String := []
  contingency_plans : List String := []
  weather_backup_plan : String := ""
deriving DecidableEq, Repr

/-- The string `event_context.event_type.value` interpolated into day
notes (the enum itself is outside the scheduling core). -/
structure EventContextT where
  complexity_score : ℚ := 0
  event_type_value : String := ""
deriving DecidableEq, Repr

/-- `TimelineGenerationContext` of `timeline_intelligence_engine.py`.
`start_time` is a datetime: it is modelled by its calendar-day and
time-of-day components, so that `start_time.time()` is `start_time_tod`. -/
structure TimelineGenerationContext where
  event_context : EventContextT
  start_date : Int
  start_time_day : Int
  start_time_tod : Int
  total_duration : Int := 0
  daily_schedule_hours : Int := 12
deriving DecidableEq, Repr

/-- The datetime value of the context's `start_time`. -/
def TimelineGenerationContext.start_time (c : TimelineGenerationContext) : Int :=
  1440 * c.start_time_day + c.start_time_tod

/-- `TimelineGenerationContext.get_daily_end_time`. -/
def TimelineGenerationContext.get_daily_end_time (c : TimelineGenerationContext)
    (day_start : Int) : Int :=
  day_start + 60 * c.daily_schedule_hours

/-- The `activity_map` lookup of `_schedule_activities_to_days`: the dict
comprehension keeps the last timed activity with a given id. -/
def lastWithId (tas : List TimedActivity) (id : String) : Option TimedActivity :=
  tas.reverse.find? (fun ta => ta.activity.id == id)

/-- The loop state of `_schedule_activities_to_days`. -/
structure SchedState where
  timeline_days : List TimelineDay
  day_number : Int
  current_date : Int
  current_time : Int
  daily_activities : List TimedActivity
  daily_cost : ℚ
deriving DecidableEq, Repr

/-- The body of one loop iteration of `_schedule_activities_to_days`
once the timed activity is known: close the running day when the
activity's total footprint would overrun the daily window, then schedule
the activity and advance the clock. -/
def schedule_known (ctx : TimelineGenerationContext) (st : SchedState)
    (timed_activity : TimedActivity) : SchedState :=
    let activity_duration := timed_activity.activity.setup_time +
      timed_activity.activity.duration + timed_activity.activity.cleanup_time +
      timed_activity.buffer_before + timed_activity.buffer_after
    let day_end_time := ctx.get_daily_end_time (1440 * st.current_date + ctx.start_time_tod)
    let closedDay : TimelineDay :=
      { day_number := st.day_number
        date := st.current_date
        activities := st.daily_activities
        estimated_cost := st.daily_cost
        notes := ["Day " ++ toString st.day_number ++ " of " ++
          ctx.event_context.event_type_value] }
    let st1 :=
      if st.current_time + activity_duration > day_end_time then
        { timeline_days :=
            if st.daily_activities ≠ [] then st.timeline_days ++ [closedDay]
            else st.timeline_days
          day_number := st.day_number + 1
          current_date := st.current_date + 1
          current_time := 1440 * (st.current_date + 1) + ctx.start_time_tod
          daily_activities := []
          daily_cost := 0 }
      else st
    let scheduled := { timed_activity with
      start_time := st1.current_time + timed_activity.buffer_before,
      end_time := st1.current_time + timed_activity.buffer_before +
        timed_activity.activity.setup_time + timed_activity.activity.duration +
        timed_activity.activity.cleanup_time }
    { st1 with
      daily_activities := st1.daily_activities ++ [scheduled],
      daily_cost := st1.daily_cost + scheduled.activity.estimated_cost,
      current_time := scheduled.end_time + timed_activity.buffer_after }

/-- One iteration of the `for activity_id in activity_order` loop of
`_schedule_activities_to_days`: skip unknown ids, otherwise run the
scheduling body. -/
def schedule_step (ctx : TimelineGenerationContext) (tas : List TimedActivity)
    (st : SchedState) (activity_id : String) : SchedState :=
  match lastWithId tas activity_id with
  | none => st
  | some timed_activity => schedule_known ctx st timed_activity

/-- `TimelineIntelligenceEngine._schedule_activities_to_days`: pack the
timed activities into calendar days in topological order. -/
def schedule_activities_to_days (timed_activities : List TimedActivity)
    (g : DependencyGraph) (ctx : TimelineGenerationContext) :
    Except String (List TimelineDay) := do
  let activity_order ← g.topological_sort
  let st0 : SchedState :=
    { timeline_days := [], day_number := 1, current_date := ctx.start_date,
      current_time := ctx.start_time, daily_activities := [], daily_cost := 0 }
  let st := activity_order.foldl (schedule_step ctx timed_activities) st0
  let finalDay : TimelineDay :=
    { day_number := st.day_number
      date := st.current_date
      activities := st.daily_activities
      estimated_cost := st.daily_cost
      notes := ["Final day of " ++ ctx.event_context.event_type_value] }
  pure (if st.daily_activities ≠ [] then st.timeline_days ++ [finalDay]
    else st.timeline_days)

/-- The per-activity footprint summed by the day-packing invariant:
setup + duration + cleanup + buffer_before + buffer_after. -/
def TimedActivity.footprint (ta : TimedActivity) : Int :=
  ta.activity.setup_time + ta.activity.duration + ta.activity.cleanup_time +
  ta.buffer_before + ta.buffer_after

/-- The summed footprint of one emitted day's activities. -/
def TimelineDay.footprintSum (d : TimelineDay) : Int :=
  (d.activities.map TimedActivity.footprint).sum

/-! ### Concrete scenario of claim C1 -/

/-- Activity A of the concrete CPM test case: preparation, one hour. -/
def actA : Activity :=
  { id := "A", name := "A", activity_type := .preparation, duration := 60, priority := .medium }

/-- Activity B of the concrete CPM test case: ceremony, two hours. -/
def actB : Activity :=
  { id := "B", name := "B", activity_type := .ceremony, duration := 120, priority := .medium }

/-- Activity C of the concrete CPM test case: cleanup, one hour. -/
def actC : Activity :=
  { id := "C", name := "C", activity_type := .cleanup, duration := 60, priority := .medium }

/-- The A/B/C graph after automatic dependency inference and the full
CPM pass from project start 09:00 (minute 540 of day zero), projected to
each node's `(earliest_start, earliest_finish, slack, is_critical)`, the
critical path, and the graph's total duration. -/
def cpmScenarioResult :
    Except String (List (Option Int × Option Int × Int × Bool) × List String × Int) :=
  ((create_dependency_graph [actA, actB, actC]).bind
      (fun g => calculate_critical_path g 540)).map
    (fun g =>
      (["A", "B", "C"].map (fun id =>
        match g.findNode id with
        | some n => (n.earliest_start, n.earliest_finish, n.slack, n.is_critical)
        | none => (none, none, 0, false)),
       g.critical_path, g.total_duration))

/-- C1: with activities A (preparation, 1h), B (ceremony, 2h) and C
(cleanup, 1h), inferred dependencies A→B (finish-to-start, 15 min) and
B→C (finish-to-start, 30 min) and project start 09:00 (minute 540), the
CPM pass gives A the window 09:00–10:00 (540–600), B 10:15–12:15
(615–735), C 12:45–13:45 (765–825), slack 0 everywhere, and critical
path [A, B, C]. -/
theorem cpm_concrete_abc :
    cpmScenarioResult =
      .ok ([(some 540, some 600, 0, true),
            (some 615, some 735, 0, true),
            (some 765, some 825, 0, true)],
           ["A", "B", "C"], 285) := by
  rfl

/-! ### Claim C6: `add_activity` -/

/-- An activity violating its field invariants (blank name, zero
duration), used to show `add_activity` performs no validation. -/
def invalidActivity : Activity :=
  { id := "X", name := "", activity_type := .ceremony, duration := 0, priority := .low }

/-- C6 counterexample: `add_activity` does not validate. The activity
has a blank name and non-positive duration, so its own `validate`
reports errors, yet `add_activity` inserts it without failing (its type
admits no failure: the source raises nothing on this path). -/
theorem add_activity_accepts_invalid :
    invalidActivity.validate = ["Activity name is required", "Duration must be positive"] ∧
    (DependencyGraph.empty.add_activity invalidActivity).findNode "X" =
      some { activity := invalidActivity } := by
  constructor <;> rfl

/-- `add_activity` on a present id is the identity. -/
theorem add_activity_of_isSome (g : DependencyGraph) (a : Activity)
    (h : (g.findNode a.id).isSome) : g.add_activity a = g := by
  simp [DependencyGraph.add_activity, h]

/-- `add_activity` on an absent id appends the fresh node. -/
theorem add_activity_of_isNone (g : DependencyGraph) (a : Activity)
    (h : ¬ (g.findNode a.id).isSome) :
    (g.add_activity a).nodes = g.nodes ++ [(a.id, { activity := a })] := by
  simp [DependencyGraph.add_activity, h]

/-- C6 amended: `add_activity` is an idempotent insert-if-absent into
the node map — a second insertion of the same activity changes nothing,
an absent id is appended as a fresh node, a present id leaves the graph
unchanged — and it never fails (no validation is performed). -/
theorem add_activity_idempotent_upsert (g : DependencyGraph) (a : Activity) :
    (g.add_activity a).add_activity a = g.add_activity a ∧
    ((g.findNode a.id).isNone →
      (g.add_activity a).nodes = g.nodes ++ [(a.id, { activity := a })]) ∧
    ((g.findNode a.id).isSome → g.add_activity a = g) := by
  refine ⟨?_, ?_, ?_⟩
  · by_cases h : (g.findNode a.id).isSome
    · rw [add_activity_of_isSome g a h, add_activity_of_isSome g a h]
    · have h2 : ((g.add_activity a).findNode a.id).isSome := by
        simp only [DependencyGraph.findNode] at h ⊢
        rw [add_activity_of_isNone g a (by simpa [DependencyGraph.findNode] using h)]
        simp only [List.find?_append]
        rcases hf : g.nodes.find? (fun p => p.1 == a.id) with _ | v
        · simp [List.find?]
        · simp [hf] at h
      rw [add_activity_of_isSome _ a h2]
  · intro h
    exact add_activity_of_isNone g a (by simpa [Option.isNone_iff_eq_none] using h)
  · intro h
    exact add_activity_of_isSome g a h

/-- C6 witness: the amended theorem applied to the empty graph and the
invalid activity. -/
theorem add_activity_idempotent_upsert_witness :
    (DependencyGraph.empty.add_activity invalidActivity).add_activity invalidActivity =
      DependencyGraph.empty.add_activity invalidActivity ∧
    (DependencyGraph.empty.add_activity invalidActivity).nodes =
      DependencyGraph.empty.nodes ++ [("X", { activity := invalidActivity })] := by
  have h := add_activity_idempotent_upsert DependencyGraph.empty invalidActivity
  exact ⟨h.1, h.2.1 (by rfl)⟩

/-! ### Claim C7: `add_dependency` -/

/-- A node whose id is the empty string (accepted by `add_activity`,
which does not validate). -/
def emptyIdActivity : Activity :=
  { id := "", name := "E", activity_type := .ceremony, duration := 60, priority := .low }

/-- A second, ordinary node. -/
def plainActivity : Activity :=
  { id := "x", name := "X", activity_type := .ceremony, duration := 60, priority := .low }

/-- A graph containing the nodes `""` and `"x"`. -/
def emptyIdGraph : DependencyGraph :=
  (DependencyGraph.empty.add_activity emptyIdActivity).add_activity plainActivity

/-- C7 counterexample: a dependency from the node `""` to the node `"x"`
has both endpoints in the graph, distinct ids and a valid type, yet
`add_dependency` fails (the validation also rejects empty ids), so the
claim's "exactly when" enumeration misses a failure case. -/
theorem add_dependency_rejects_empty_id :
    (emptyIdGraph.findNode "").isSome ∧ (emptyIdGraph.findNode "x").isSome ∧
    ("" : String) ≠ "x" ∧
    emptyIdGraph.add_dependency
        { predecessor_id := "", successor_id := "x", dependency_type := "finish_to_start" } =
      .error "Invalid dependency: Predecessor ID is required" := by
  refine ⟨rfl, rfl, by decide, rfl⟩

/-- The exact failure condition of `add_dependency`: one of the claim's
cases, or an empty endpoint id. -/
def addDependencyFails (g : DependencyGraph) (d : Dependency) : Prop :=
  d.predecessor_id = "" ∨ d.successor_id = "" ∨
  d.predecessor_id = d.successor_id ∨
  ¬(d.dependency_type = "finish_to_start" ∨ d.dependency_type = "start_to_start" ∨
    d.dependency_type = "finish_to_finish" ∨ d.dependency_type = "start_to_finish") ∨
  (g.findNode d.predecessor_id).isNone ∨ (g.findNode d.successor_id).isNone

/-- `findNode` after `updateNode` at the updated id: rewritten when the
id is a key, still absent otherwise. -/
theorem findNode_updateNode_self (g : DependencyGraph) (id : String) (n : DependencyNode) :
    (g.updateNode id n).findNode id = if (g.findNode id).isSome then some n else none := by
  have key : ∀ l : List (String × DependencyNode),
      ((l.map (fun p => if p.1 == id then (p.1, n) else p)).find?
        (fun p => p.1 == id)).map Prod.snd =
      if ((l.find? (fun p => p.1 == id)).map Prod.snd).isSome then some n else none := by
    intro l
    induction l with
    | nil => simp
    | cons p rest ih =>
      by_cases h : p.1 = id
      · have hb : (p.1 == id) = true := by simpa using h
        rw [List.map_cons,
          show (if p.1 == id then (p.1, n) else p) = (p.1, n) from by simp [hb]]
        simp only [List.find?, hb]
        simp
      · have hb : (p.1 == id) = false := by simpa using h
        rw [List.map_cons,
          show (if p.1 == id then (p.1, n) else p) = p from by simp [hb]]
        simp only [List.find?, hb]
        exact ih
  simpa [DependencyGraph.findNode, DependencyGraph.updateNode] using key g.nodes

/-- `findNode` after `updateNode` at any other id is unchanged. -/
theorem findNode_updateNode_other (g : DependencyGraph) (id id' : String)
    (n : DependencyNode) (h : id' ≠ id) :
    (g.updateNode id n).findNode id' = g.findNode id' := by
  have key : ∀ l : List (String × DependencyNode),
      ((l.map (fun p => if p.1 == id then (p.1, n) else p)).find?
        (fun p => p.1 == id')).map Prod.snd =
      (l.find? (fun p => p.1 == id')).map Prod.snd := by
    intro l
    induction l with
    | nil => simp
    | cons p rest ih =>
      by_cases hp : p.1 = id
      · have hb' : (p.1 == id') = false := by
          rw [hp]; simpa using (Ne.symm h)
        rw [List.map_cons,
          show (if p.1 == id then (p.1, n) else p) = (p.1, n) from by simp [hp]]
        simp only [List.find?, hb']
        exact ih
      · have hb : (p.1 == id) = false := by simpa using hp
        by_cases hq : p.1 = id'
        · have hq' : (p.1 == id') = true := by simpa using hq
          rw [List.map_cons,
            show (if p.1 == id then (p.1, n) else p) = p from by simp [hb]]
          simp only [List.find?, hq']
        · have hq' : (p.1 == id') = false := by simpa using hq
          rw [List.map_cons,
            show (if p.1 == id then (p.1, n) else p) = p from by simp [hb]]
          simp only [List.find?, hq']
          exact ih
  simpa [DependencyGraph.findNode, DependencyGraph.updateNode] using key g.nodes

/-- The success path of `add_dependency`, spelled out. -/
theorem add_dependency_ok (g : DependencyGraph) (d : Dependency)
    (hv : d.validate = []) (pn sn : DependencyNode)
    (hpn : g.findNode d.predecessor_id = some pn)
    (hsn : g.findNode d.successor_id = some sn)
    (hne : d.predecessor_id ≠ d.successor_id) :
    g.add_dependency d = .ok
      ((({ g with dependencies := g.dependencies ++ [d] } :
          DependencyGraph).updateNode d.predecessor_id
            { pn with successors := insertOnce pn.successors d.successor_id }).updateNode
        d.successor_id
        { sn with predecessors := insertOnce sn.predecessors d.predecessor_id }) := by
  have hg1pn : ({ g with dependencies := g.dependencies ++ [d] } :
      DependencyGraph).findNode d.predecessor_id = some pn := hpn
  have hg2sn : ((({ g with dependencies := g.dependencies ++ [d] } :
      DependencyGraph).updateNode d.predecessor_id
        { pn with successors := insertOnce pn.successors d.successor_id })).findNode
      d.successor_id = some sn := by
    rw [findNode_updateNode_other _ _ _ _ (fun hh => hne hh.symm)]
    exact hsn
  simp only [DependencyGraph.add_dependency, hv, hpn, hsn, hg1pn, hg2sn]
  simp

/-- C7 amended: `add_dependency` fails exactly when the predecessor or
successor id is not a node, the ids are equal, the type is not one of the
four kinds, **or either id is the empty string** (the field validation
rejects empty ids before the membership checks can accept them);
otherwise it appends the edge to the dependency list, adds the successor
to the predecessor's successor set and the predecessor to the
successor's predecessor set, leaving every other node unchanged. -/
theorem add_dependency_spec (g : DependencyGraph) (d : Dependency) :
    ((¬ addDependencyFails g d) → ∃ pn sn g',
      g.findNode d.predecessor_id = some pn ∧
      g.findNode d.successor_id = some sn ∧
      g.add_dependency d = .ok g' ∧
      g'.dependencies = g.dependencies ++ [d] ∧
      g'.findNode d.predecessor_id =
        some { pn with successors := insertOnce pn.successors d.successor_id } ∧
      g'.findNode d.successor_id =
        some { sn with predecessors := insertOnce sn.predecessors d.predecessor_id } ∧
      (∀ other, other ≠ d.predecessor_id → other ≠ d.successor_id →
        g'.findNode other = g.findNode other)) ∧
    (addDependencyFails g d → ∃ e, g.add_dependency d = .error e) := by
  constructor
  · intro hok
    simp only [addDependencyFails, not_or] at hok
    obtain ⟨h1, h2, h3, h4, h5, h6⟩ := hok
    have h4' : d.dependency_type = "finish_to_start" ∨
        d.dependency_type = "start_to_start" ∨
        d.dependency_type = "finish_to_finish" ∨
        d.dependency_type = "start_to_finish" := by tauto
    have hv : d.validate = [] := by
      simp only [Dependency.validate, if_neg h1, if_neg h2, if_neg h3, if_pos h4']
      simp
    rcases hpn : g.findNode d.predecessor_id with _ | pn
    · simp [hpn] at h5
    rcases hsn : g.findNode d.successor_id with _ | sn
    · simp [hsn] at h6
    have hok := add_dependency_ok g d hv pn sn hpn hsn h3
    refine ⟨pn, sn, _, rfl, rfl, hok, rfl, ?_, ?_, ?_⟩
    · rw [findNode_updateNode_other _ _ _ _ h3, findNode_updateNode_self]
      have : ({ g with dependencies := g.dependencies ++ [d] } :
          DependencyGraph).findNode d.predecessor_id = some pn := hpn
      simp [this]
    · rw [findNode_updateNode_self]
      have : ((({ g with dependencies := g.dependencies ++ [d] } :
          DependencyGraph).updateNode d.predecessor_id
            { pn with successors := insertOnce pn.successors d.successor_id })).findNode
          d.successor_id = some sn := by
        rw [findNode_updateNode_other _ _ _ _ (fun hh => h3 hh.symm)]
        exact hsn
      simp [this]
    · intro other hop hos
      rw [findNode_updateNode_other _ _ _ _ hos, findNode_updateNode_other _ _ _ _ hop]
      rfl
  · intro hbad
    by_cases hv : d.validate = []
    · have hcases : (g.findNode d.predecessor_id).isNone ∨
          (g.findNode d.successor_id).isNone := by
        rcases hbad with h | h | h | h | h | h
        · exact absurd hv (by simp [Dependency.validate, h])
        · exact absurd hv (by simp [Dependency.validate, h])
        · exact absurd hv (by simp [Dependency.validate, h])
        · exact absurd hv (by
            simp only [Dependency.validate, if_neg h]
            simp)
        · exact Or.inl h
        · exact Or.inr h
      rcases hp : g.findNode d.predecessor_id with _ | pn
      · have herr : g.add_dependency d =
            Except.error ("Predecessor activity \'" ++ d.predecessor_id ++ "\' not found") := by
          simp [DependencyGraph.add_dependency, hv, hp]
        exact ⟨_, herr⟩
      · have hs : (g.findNode d.successor_id).isNone := by
          rcases hcases with h | h
          · rw [hp] at h; simp at h
          · exact h
        rcases hs' : g.findNode d.successor_id with _ | sn
        · have herr : g.add_dependency d =
              Except.error ("Successor activity \'" ++ d.successor_id ++ "\' not found") := by
            simp [DependencyGraph.add_dependency, hv, hp, hs']
          exact ⟨_, herr⟩
        · rw [hs'] at hs; simp at hs
    · have herr : g.add_dependency d =
          Except.error ("Invalid dependency: " ++ String.intercalate ", " d.validate) := by
        simp [DependencyGraph.add_dependency, hv]
      exact ⟨_, herr⟩

/-- A small graph with nodes `"x"` and `"y"` for the C7 witness. -/
def xyGraph : DependencyGraph :=
  (DependencyGraph.empty.add_activity plainActivity).add_activity
    { id := "y", name := "Y", activity_type := .cleanup, duration := 30, priority := .low }

/-- C7 witness: the amended theorem applied to the `"x"`/`"y"` graph and
a valid finish-to-start edge between them. -/
theorem add_dependency_spec_witness :
    ∃ pn sn g', xyGraph.findNode "x" = some pn ∧ xyGraph.findNode "y" = some sn ∧
      xyGraph.add_dependency
          { predecessor_id := "x", successor_id := "y",
            dependency_type := "finish_to_start" } = .ok g' ∧
      g'.dependencies = xyGraph.dependencies ++
        [{ predecessor_id := "x", successor_id := "y",
           dependency_type := "finish_to_start" }] ∧
      g'.findNode "x" =
        some { pn with successors := insertOnce pn.successors "y" } ∧
      g'.findNode "y" =
        some { sn with predecessors := insertOnce sn.predecessors "x" } ∧
      (∀ other, other ≠ "x" → other ≠ "y" →
        g'.findNode other = xyGraph.findNode other) := by
  exact (add_dependency_spec xyGraph
    { predecessor_id := "x", successor_id := "y",
      dependency_type := "finish_to_start" }).1 (by
    simp only [addDependencyFails]
    decide)

/-! ### Claim C8: buffer time -/

/-- The dependency-density multiplier exactly as the claim words it:
1.0 for count 0, 1.1 for 1–2, 1.3 for 3–5, 1.5 for 6 or more. -/
def specDependencyMultiplier (count : Nat) : ℚ :=
  if count = 0 then 1
  else if count ≤ 2 then 11 / 10
  else if count ≤ 5 then 13 / 10
  else 15 / 10

/-- C8: `calculate_buffer_time` returns exactly the clamp of
duration × priority percentage × complexity multiplier × dependency
multiplier to [15 minutes, 2 hours], with the claim's dependency table,
and the result always lies between 15 minutes and 2 hours inclusive. -/
theorem calculate_buffer_time_formula (a : Activity) (ctx : EventContext)
    (count : Nat) :
    calculate_buffer_time a ctx count =
      max 15 (min ((a.duration : ℚ) * priority_multipliers a.priority *
        ((complexity_multipliers (get_complexity_level ctx.complexity_score)).getD 0) *
        specDependencyMultiplier count) 120) ∧
    15 ≤ calculate_buffer_time a ctx count ∧
    calculate_buffer_time a ctx count ≤ 120 := by
  have hdep : (dependency_multipliers (get_dependency_level count)).getD 0 =
      specDependencyMultiplier count := by
    simp only [get_dependency_level, dependency_multipliers, specDependencyMultiplier]
    split_ifs <;> simp_all
  have hform : calculate_buffer_time a ctx count =
      max 15 (min ((a.duration : ℚ) * priority_multipliers a.priority *
        ((complexity_multipliers (get_complexity_level ctx.complexity_score)).getD 0) *
        specDependencyMultiplier count) 120) := by
    simp only [calculate_buffer_time, hdep]
    ring_nf
  refine ⟨hform, ?_, ?_⟩
  · rw [hform]; exact le_max_left _ _
  · rw [hform]
    exact max_le (by norm_num) (min_le_right _ _)

/-! ### Claim C9: backward pass ordering -/

/-- C9: invoking the backward pass on a graph none of whose nodes has
been forward-passed (every `earliest_finish` unset) fails: the project
end is the `max()` of an empty sequence, so the source raises before
touching any node. -/
theorem backward_pass_requires_forward (g : DependencyGraph)
    (h : ∀ p ∈ g.nodes, p.2.earliest_finish = none) :
    ∃ e, backward_pass g = .error e := by
  have hnil : g.nodes.filterMap (fun p => p.2.earliest_finish) = [] := by
    simp only [List.filterMap_eq_nil_iff]
    exact h
  rcases htopo : g.topological_sort with e | l
  · exact ⟨e, by simp [backward_pass, htopo, Bind.bind, Except.bind]⟩
  · refine ⟨"ValueError: max() arg is an empty sequence", ?_⟩
    simp [backward_pass, htopo, hnil, Bind.bind, Except.bind]

/-- A fresh unscheduled one-node graph for the C9 witness. -/
def unscheduledGraph : DependencyGraph :=
  DependencyGraph.empty.add_activity
    { id := "w", name := "W", activity_type := .ceremony, duration := 45, priority := .high }

/-- C9 witness: the backward pass fails on the unscheduled one-node
graph. -/
theorem backward_pass_requires_forward_witness :
    ∃ e, backward_pass unscheduledGraph = .error e :=
  backward_pass_requires_forward unscheduledGraph (by decide)

/-! ### The dependency relation and well-formed graphs -/

/-- The edge relation the traversals follow: `b` is in `a`'s successor
set. -/
def DependencyGraph.Edge (g : DependencyGraph) (a b : String) : Prop :=
  ∃ n, g.findNode a = some n ∧ b ∈ n.successors

/-- Acyclicity of the dependency relation: no nonempty edge path from a
node back to itself. -/
def DependencyGraph.Acyclic (g : DependencyGraph) : Prop :=
  ∀ a, ¬ Relation.TransGen g.Edge a a

/-- The structural invariants every graph built through `add_activity`
and `add_dependency` enjoys: distinct keys, duplicate-free
predecessor/successor sets that reference existing nodes, no self-loops,
mutually consistent predecessor/successor sets, and edges recorded in
the dependency list realised in the successor sets. -/
structure DependencyGraph.WF (g : DependencyGraph) : Prop where
  keys_nodup : g.keys.Nodup
  succ_key : ∀ p ∈ g.nodes, ∀ s ∈ p.2.successors, s ∈ g.keys
  pred_key : ∀ p ∈ g.nodes, ∀ q ∈ p.2.predecessors, q ∈ g.keys
  succ_nodup : ∀ p ∈ g.nodes, p.2.successors.Nodup
  pred_nodup : ∀ p ∈ g.nodes, p.2.predecessors.Nodup
  no_self : ∀ p ∈ g.nodes, p.1 ∉ p.2.successors
  succ_pred : ∀ p ∈ g.nodes, ∀ q ∈ g.nodes,
    (q.1 ∈ p.2.successors ↔ p.1 ∈ q.2.predecessors)
  dep_edge : ∀ d ∈ g.dependencies, ∃ p ∈ g.nodes,
    p.1 = d.predecessor_id ∧ d.successor_id ∈ p.2.successors

/-- A successful `findNode` returns a pair of the node list. -/
theorem findNode_mem {g : DependencyGraph} {a : String} {n : DependencyNode}
    (h : g.findNode a = some n) : (a, n) ∈ g.nodes := by
  simp only [DependencyGraph.findNode] at h
  rcases hf : g.nodes.find? (fun p => p.1 == a) with _ | p
  · rw [hf] at h; simp at h
  · rw [hf] at h
    have hn : p.2 = n := by simpa using h
    have hm := List.mem_of_find?_eq_some hf
    have hp : p.1 = a := by simpa using List.find?_some hf
    rw [← hn, ← hp]
    exact hm

/-- With duplicate-free keys, membership determines `findNode`. -/
theorem findNode_of_mem {g : DependencyGraph} (hnd : g.keys.Nodup)
    {a : String} {n : DependencyNode} (hmem : (a, n) ∈ g.nodes) :
    g.findNode a = some n := by
  suffices key : ∀ l : List (String × DependencyNode), (l.map Prod.fst).Nodup →
      (a, n) ∈ l → (l.find? (fun p => p.1 == a)).map Prod.snd = some n by
    exact key g.nodes hnd hmem
  intro l
  induction l with
  | nil => intro _ h; simp at h
  | cons p rest ih =>
    intro hnd hm
    simp only [List.map_cons, List.nodup_cons] at hnd
    rcases List.mem_cons.mp hm with h | h
    · rw [← h]
      simp [List.find?]
    · have ha : a ∈ rest.map Prod.fst := by
        simpa using List.mem_map_of_mem Prod.fst h
      have hpa : p.1 ≠ a := fun hh => hnd.1 (hh ▸ ha)
      have hb : (p.1 == a) = false := by simpa using hpa
      rw [List.find?_cons_of_neg _ (by simp [hb])]
      exact ih hnd.2 h

/-- `findNode` succeeds exactly on keys. -/
theorem findNode_isSome_iff {g : DependencyGraph} {a : String} :
    (g.findNode a).isSome ↔ a ∈ g.keys := by
  simp only [DependencyGraph.findNode, DependencyGraph.keys]
  constructor
  · intro h
    rcases hf : g.nodes.find? (fun p => p.1 == a) with _ | p
    · rw [hf] at h; simp at h
    · have hm := List.mem_of_find?_eq_some hf
      have hp : p.1 = a := by simpa using List.find?_some hf
      exact hp ▸ List.mem_map_of_mem Prod.fst hm
  · intro hm
    rcases List.mem_map.mp hm with ⟨p, hp, hpa⟩
    rcases hf : g.nodes.find? (fun q => q.1 == a) with _ | q
    · exfalso
      have := List.find?_eq_none.mp hf p hp
      simp [hpa] at this
    · simp [hf]

/-- `updateNode` preserves the key list. -/
theorem keys_updateNode (g : DependencyGraph) (id : String) (n : DependencyNode) :
    (g.updateNode id n).keys = g.keys := by
  simp only [DependencyGraph.keys, DependencyGraph.updateNode, List.map_map]
  apply List.map_congr_left
  intro p _
  by_cases h : p.1 = id <;> simp [h]

/-- `updateNode` preserves the dependency list. -/
theorem dependencies_updateNode (g : DependencyGraph) (id : String) (n : DependencyNode) :
    (g.updateNode id n).dependencies = g.dependencies := rfl

/-! ### Soundness of the DFS cycle check -/

/-- Every id in a node's successor list is an edge target. -/
theorem edge_of_nodeSuccs {g : DependencyGraph} {id s : String}
    (h : s ∈ g.nodeSuccs id) : g.Edge id s := by
  simp only [DependencyGraph.nodeSuccs] at h
  rcases hf : g.findNode id with _ | n
  · rw [hf] at h; simp at h
  · rw [hf] at h; exact ⟨n, hf, h⟩

theorem dfsList_nil (g : DependencyGraph) (fuel : Nat) (acc : Bool × (String → Color)) :
    dfsList g fuel acc [] = acc := rfl

theorem dfsList_cons (g : DependencyGraph) (fuel : Nat) (acc : Bool × (String → Color))
    (s : String) (l : List String) :
    dfsList g fuel acc (s :: l) =
      dfsList g fuel (if acc.1 then acc else dfsVisit g fuel acc.2 s) l := rfl

theorem dfsList_of_true (g : DependencyGraph) (fuel : Nat)
    (acc : Bool × (String → Color)) (l : List String) (h : acc.1 = true) :
    dfsList g fuel acc l = acc := by
  induction l generalizing acc with
  | nil => rfl
  | cons s rest ih => rw [dfsList_cons, if_pos h]; exact ih acc h

theorem dfsVisit_gray_eq (g : DependencyGraph) (fuel : Nat) (colors : String → Color)
    (nodeId : String) (h : colors nodeId = Color.gray) :
    dfsVisit g (fuel + 1) colors nodeId = (true, colors) := by
  unfold dfsVisit; rw [h]

theorem dfsVisit_black_eq (g : DependencyGraph) (fuel : Nat) (colors : String → Color)
    (nodeId : String) (h : colors nodeId = Color.black) :
    dfsVisit g (fuel + 1) colors nodeId = (false, colors) := by
  unfold dfsVisit; rw [h]

theorem dfsVisit_white_eq (g : DependencyGraph) (fuel : Nat) (colors : String → Color)
    (nodeId : String) (h : colors nodeId = Color.white) :
    dfsVisit g (fuel + 1) colors nodeId =
      (let r := dfsList g fuel
          (false, fun x => if x = nodeId then Color.gray else colors x) (g.nodeSuccs nodeId)
       if r.1 then (true, r.2)
       else (false, fun x => if x = nodeId then Color.black else r.2 x)) := by
  unfold dfsVisit; rw [h]; rfl

/-- A `false`-returning DFS visit paints no new node gray. -/
theorem dfsVisit_gray_mono (g : DependencyGraph) : ∀ fuel (colors : String → Color)
    (nodeId : String), (dfsVisit g fuel colors nodeId).1 = false →
    ∀ x, (dfsVisit g fuel colors nodeId).2 x = Color.gray → colors x = Color.gray := by
  intro fuel
  induction fuel with
  | zero => intro colors nodeId _ x hx; simpa using hx
  | succ fuel ih =>
    have listmono : ∀ (l : List String) (acc : Bool × (String → Color)), acc.1 = false →
        (dfsList g fuel acc l).1 = false →
        ∀ x, (dfsList g fuel acc l).2 x = Color.gray → acc.2 x = Color.gray := by
      intro l
      induction l with
      | nil => intro acc _ _ x hx; simpa using hx
      | cons s rest ihl =>
        intro acc hacc hres x hx
        rw [dfsList_cons, if_neg (by simp [hacc])] at hres hx
        rcases hr : (dfsVisit g fuel acc.2 s).1 with _ | _
        · have h2 := ihl (dfsVisit g fuel acc.2 s) hr hres x hx
          exact ih acc.2 s hr x h2
        · rw [dfsList_of_true _ _ _ _ hr] at hres
          rw [hr] at hres; exact absurd hres (by simp)
    intro colors nodeId hres x hx
    rcases hc : colors nodeId with _ | _ | _
    · rw [dfsVisit_white_eq g fuel colors nodeId hc] at hres hx
      rcases hr : (dfsList g fuel
          (false, fun x => if x = nodeId then Color.gray else colors x)
          (g.nodeSuccs nodeId)).1 with _ | _
      · simp only [hr, if_false, Bool.false_eq_true] at hres hx
        by_cases hxn : x = nodeId
        · rw [if_pos hxn] at hx; exact absurd hx (by simp)
        · rw [if_neg hxn] at hx
          have h2 := listmono (g.nodeSuccs nodeId) _ rfl hr x hx
          simpa [if_neg hxn] using h2
      · simp only [hr, if_true] at hres
        exact absurd hres (by simp)
    · rw [dfsVisit_gray_eq g fuel colors nodeId hc] at hres
      exact absurd hres (by simp)
    · rw [dfsVisit_black_eq g fuel colors nodeId hc] at hx
      exact hx

/-- A `true`-returning DFS visit has hit a gray node, and the gray nodes
form a path into the visited node: a cycle exists. -/
theorem dfsVisit_sound (g : DependencyGraph) : ∀ fuel (colors : String → Color)
    (nodeId : String),
    (∀ x, colors x = Color.gray → Relation.TransGen g.Edge x nodeId) →
    (dfsVisit g fuel colors nodeId).1 = true →
    ∃ a, Relation.TransGen g.Edge a a := by
  intro fuel
  induction fuel with
  | zero => intro colors nodeId _ h; exact absurd h (by simp [dfsVisit])
  | succ fuel ih =>
    have listsound : ∀ (l : List String) (p : String) (colors : String → Color),
        (∀ x, colors x = Color.gray → Relation.ReflTransGen g.Edge x p) →
        (∀ s ∈ l, g.Edge p s) →
        (dfsList g fuel (false, colors) l).1 = true →
        ∃ a, Relation.TransGen g.Edge a a := by
      intro l
      induction l with
      | nil => intro p colors _ _ h; exact absurd h (by simp [dfsList_nil])
      | cons s rest ihl =>
        intro p colors hgray hedge hres
        rw [dfsList_cons, if_neg (by simp)] at hres
        rcases hr : (dfsVisit g fuel colors s).1 with _ | _
        · have hpair : dfsVisit g fuel colors s = (false, (dfsVisit g fuel colors s).2) := by
            rw [← hr]
          rw [hpair] at hres
          refine ihl p ((dfsVisit g fuel colors s).2) ?_ ?_ hres
          · intro x hx
            exact hgray x (dfsVisit_gray_mono g fuel colors s hr x hx)
          · intro s' hs'; exact hedge s' (List.mem_cons_of_mem _ hs')
        · refine ih colors s ?_ hr
          intro x hx
          exact Relation.TransGen.tail' (hgray x hx) (hedge s (List.mem_cons_self _ _))
    intro colors nodeId hgray hres
    rcases hc : colors nodeId with _ | _ | _
    · rw [dfsVisit_white_eq g fuel colors nodeId hc] at hres
      rcases hr : (dfsList g fuel
          (false, fun x => if x = nodeId then Color.gray else colors x)
          (g.nodeSuccs nodeId)).1 with _ | _
      · simp only [hr, if_false, Bool.false_eq_true] at hres
      · refine listsound (g.nodeSuccs nodeId) nodeId _ ?_ ?_ hr
        · intro x hx
          by_cases hxn : x = nodeId
          · exact hxn ▸ Relation.ReflTransGen.refl
          · rw [if_neg hxn] at hx
            exact (hgray x hx).to_reflTransGen
        · intro s hs; exact edge_of_nodeSuccs hs
    · exact ⟨nodeId, hgray nodeId hc⟩
    · rw [dfsVisit_black_eq g fuel colors nodeId hc] at hres
      exact absurd hres (by simp)

/-- Soundness of `has_cycle`: a `true` answer exhibits a real cycle. -/
theorem has_cycle_sound {g : DependencyGraph} (h : g.has_cycle = true) :
    ∃ a, Relation.TransGen g.Edge a a := by
  have key : ∀ (l : List String) (acc : Bool × (String → Color)),
      (acc.1 = true → ∃ a, Relation.TransGen g.Edge a a) →
      (acc.1 = false → ∀ x, acc.2 x ≠ Color.gray) →
      ((l.foldl (fun acc id =>
          if acc.1 then acc
          else if acc.2 id = Color.white then dfsVisit g (g.nodes.length + 1) acc.2 id
          else acc) acc).1 = true → ∃ a, Relation.TransGen g.Edge a a) := by
    intro l
    induction l with
    | nil => intro acc h1 _ hres; exact h1 hres
    | cons id rest ihl =>
      intro acc h1 h2 hres
      rcases hacc : acc.1 with _ | _
      · rw [List.foldl_cons, if_neg (by simp [hacc])] at hres
        by_cases hw : acc.2 id = Color.white
        · rw [if_pos hw] at hres
          refine ihl _ ?_ ?_ hres
          · intro ht
            refine dfsVisit_sound g (g.nodes.length + 1) acc.2 id ?_ ht
            intro x hx; exact absurd hx (h2 hacc x)
          · intro hf x
            intro hx
            exact h2 hacc x (dfsVisit_gray_mono g _ acc.2 id hf x hx)
        · rw [if_neg hw] at hres
          exact ihl acc h1 h2 hres
      · rw [List.foldl_cons, if_pos (by simp [hacc])] at hres
        exact ihl acc h1 h2 hres
  exact key g.keys (false, fun _ => Color.white) (by simp) (by simp) h

/-- An acyclic graph passes the DFS cycle check. -/
theorem has_cycle_false_of_acyclic {g : DependencyGraph} (h : g.Acyclic) :
    g.has_cycle = false := by
  rcases hc : g.has_cycle with _ | _
  · rfl
  · rcases has_cycle_sound hc with ⟨a, ha⟩
    exact absurd ha (h a)

/-! ### Kahn's algorithm: bookkeeping lemmas -/

theorem kahnLoop_nil (g : DependencyGraph) (fuel : Nat) (deg : List (String × Int))
    (res : List String) : kahnLoop g fuel [] deg res = some res := by
  cases fuel <;> rfl

theorem kahnLoop_zero_cons (g : DependencyGraph) (q : String) (rest : List String)
    (deg : List (String × Int)) (res : List String) :
    kahnLoop g 0 (q :: rest) deg res = none := rfl

theorem kahnLoop_succ_cons (g : DependencyGraph) (fuel : Nat) (q : String)
    (rest : List String) (deg : List (String × Int)) (res : List String) :
    kahnLoop g (fuel + 1) (q :: rest) deg res =
      kahnLoop g fuel ((g.nodeSuccs q).foldl kahnStep (deg, rest)).2
        ((g.nodeSuccs q).foldl kahnStep (deg, rest)).1 (res ++ [q]) := rfl

theorem degOf_degDec_self (d : List (String × Int)) (s : String) :
    degOf (degDec d s) s = (degOf d s).map (· - 1) := by
  induction d with
  | nil => rfl
  | cons p rest ih =>
    by_cases h : p.1 = s
    · have hb : (p.1 == s) = true := by simpa using h
      simp only [degDec, degOf, List.map_cons, hb, if_true, List.find?]
      simp
    · have hb : (p.1 == s) = false := by simpa using h
      simp only [degDec, degOf, List.map_cons, hb, if_false, List.find?,
        Bool.false_eq_true]
      simpa [degDec, degOf] using ih

theorem degOf_degDec_other (d : List (String × Int)) (s k : String) (h : k ≠ s) :
    degOf (degDec d s) k = degOf d k := by
  induction d with
  | nil => rfl
  | cons p rest ih =>
    by_cases hp : p.1 = s
    · have hb : (p.1 == s) = true := by simpa using hp
      have hk : (p.1 == k) = false := by
        rw [hp]; simpa using fun hh => h hh.symm
      simp only [degDec, degOf, List.map_cons, hb, if_true, List.find?, hk,
        Bool.false_eq_true]
      simpa [degDec, degOf] using ih
    · have hb : (p.1 == s) = false := by simpa using hp
      by_cases hk : p.1 = k
      · have hk' : (p.1 == k) = true := by simpa using hk
        simp [degDec, degOf, List.find?, hb, hk']
      · have hk' : (p.1 == k) = false := by simpa using hk
        simp only [degDec, degOf, List.map_cons, hb, if_false, List.find?, hk',
          Bool.false_eq_true]
        simpa [degDec, degOf] using ih

theorem phi_degDec_le (d : List (String × Int)) (s : String) :
    phi (degDec d s) ≤ phi d := by
  induction d with
  | nil => exact le_refl _
  | cons p rest ih =>
    simp only [degDec, phi, List.map_cons, List.sum_cons] at ih ⊢
    by_cases h : p.1 = s
    · have hb : (p.1 == s) = true := by simpa using h
      simp only [hb, if_true]
      exact Nat.add_le_add (Int.toNat_le_toNat (by omega)) ih
    · have hb : (p.1 == s) = false := by simpa using h
      simp only [hb, if_false, Bool.false_eq_true]
      exact Nat.add_le_add_left ih _

theorem phi_degDec_lt (d : List (String × Int)) (s : String) (v : Int)
    (h : degOf d s = some v) (hv : 0 < v) : phi (degDec d s) < phi d := by
  induction d with
  | nil => simp [degOf] at h
  | cons p rest ih =>
    by_cases hp : p.1 = s
    · have hb : (p.1 == s) = true := by simpa using hp
      have hpv : p.2 = v := by
        simp only [degOf, List.find?, hb] at h
        simpa using h
      simp only [degDec, phi, List.map_cons, List.sum_cons, hb, if_true]
      have h1 : (p.2 - 1).toNat < p.2.toNat := by omega
      have h2 := phi_degDec_le rest s
      simp only [degDec, phi] at h2
      omega
    · have hb : (p.1 == s) = false := by simpa using hp
      have h' : degOf rest s = some v := by
        simpa [degOf, List.find?, hb] using h
      have := ih h'
      simp only [degDec, phi, List.map_cons, List.sum_cons, hb, if_false,
        Bool.false_eq_true] at this ⊢
      omega

theorem kahnStep_measure (st : List (String × Int) × List String) (s : String) :
    (kahnStep st s).2.length + phi (kahnStep st s).1 ≤ st.2.length + phi st.1 := by
  simp only [kahnStep]
  by_cases h : degOf (degDec st.1 s) s == some 0
  · simp only [h, if_true]
    have h' : degOf (degDec st.1 s) s = some 0 := by simpa using h
    rw [degOf_degDec_self] at h'
    rcases hd : degOf st.1 s with _ | v
    · rw [hd] at h'; simp at h'
    · rw [hd] at h'
      have hv' : v - 1 = 0 := by simpa using h'
      have hv : v = 1 := by omega
      have := phi_degDec_lt st.1 s v hd (by omega)
      simp only [List.length_append, List.length_cons, List.length_nil]
      omega
  · simp only [h, if_false, Bool.false_eq_true]
    have := phi_degDec_le st.1 s
    omega

theorem kahnFold_measure (l : List String) (st : List (String × Int) × List String) :
    (l.foldl kahnStep st).2.length + phi (l.foldl kahnStep st).1 ≤
      st.2.length + phi st.1 := by
  induction l generalizing st with
  | nil => exact le_refl _
  | cons s rest ih =>
    rw [List.foldl_cons]
    exact le_trans (ih (kahnStep st s)) (kahnStep_measure st s)

theorem kahnLoop_isSome (g : DependencyGraph) : ∀ (fuel : Nat) (q : List String)
    (deg : List (String × Int)) (res : List String),
    q.length + phi deg < fuel → (kahnLoop g fuel q deg res).isSome := by
  intro fuel
  induction fuel with
  | zero => intro q deg res h; omega
  | succ fuel ih =>
    intro q deg res h
    rcases q with _ | ⟨q, rest⟩
    · rw [kahnLoop_nil]; rfl
    · rw [kahnLoop_succ_cons]
      apply ih
      have hm : ((g.nodeSuccs q).foldl kahnStep (deg, rest)).2.length +
          phi ((g.nodeSuccs q).foldl kahnStep (deg, rest)).1 ≤
          rest.length + phi deg := kahnFold_measure (g.nodeSuccs q) (deg, rest)
      simp only [List.length_cons] at h
      omega

theorem kahnStep_fst (st : List (String × Int) × List String) (s : String) :
    (kahnStep st s).1 = degDec st.1 s := by
  simp only [kahnStep]
  by_cases h : degOf (degDec st.1 s) s == some 0 <;> simp [h]

/-- The push condition of `kahnStep`, phrased on the pre-decrement
table. -/
theorem kahnStep_push_cond (d : List (String × Int)) (s : String) :
    (degOf (degDec d s) s == some 0) = (degOf d s == some 1) := by
  rw [degOf_degDec_self]
  rcases h : degOf d s with _ | v
  · simp
  · simp only [Option.map_some']
    rcases hv : v == 1 with _ | _
    · have : v ≠ 1 := by simpa using hv
      have : v - 1 ≠ 0 := by omega
      simp [this, hv]
    · have : v = 1 := by simpa using hv
      simp [this]

theorem kahnStep_snd (st : List (String × Int) × List String) (s : String) :
    (kahnStep st s).2 = st.2 ++ (if degOf st.1 s == some 1 then [s] else []) := by
  simp only [kahnStep, kahnStep_push_cond]
  by_cases h : degOf st.1 s == some 1 <;> simp [h]

theorem kahnFold_deg (l : List String) (hl : l.Nodup)
    (st : List (String × Int) × List String) (k : String) :
    degOf ((l.foldl kahnStep st).1) k =
      if k ∈ l then (degOf st.1 k).map (· - 1) else degOf st.1 k := by
  induction l generalizing st with
  | nil => rw [List.foldl_nil, if_neg (by simp)]
  | cons s rest ih =>
    rw [List.foldl_cons]
    simp only [List.nodup_cons] at hl
    rw [ih hl.2 (kahnStep st s), kahnStep_fst]
    by_cases hks : k = s
    · have hkr : k ∉ rest := hks ▸ hl.1
      rw [if_neg hkr, if_pos (by simp [hks]), hks, degOf_degDec_self]
    · rw [degOf_degDec_other _ _ _ hks]
      by_cases hkr : k ∈ rest
      · rw [if_pos hkr, if_pos (List.mem_cons_of_mem _ hkr)]
      · rw [if_neg hkr, if_neg (by simp [hks, hkr])]

theorem kahnFold_queue (l : List String) (hl : l.Nodup)
    (st : List (String × Int) × List String) :
    (l.foldl kahnStep st).2 =
      st.2 ++ l.filter (fun s => degOf st.1 s == some 1) := by
  induction l generalizing st with
  | nil => rw [List.foldl_nil, List.filter_nil, List.append_nil]
  | cons s rest ih =>
    rw [List.foldl_cons]
    simp only [List.nodup_cons] at hl
    rw [ih hl.2 (kahnStep st s), kahnStep_fst, kahnStep_snd]
    have hcong : rest.filter (fun s' => degOf (degDec st.1 s) s' == some 1) =
        rest.filter (fun s' => degOf st.1 s' == some 1) := by
      apply List.filter_congr
      intro s' hs'
      rw [degOf_degDec_other _ _ _ (fun hh => hl.1 (by rw [← hh]; exact hs'))]
    rw [hcong, List.filter_cons]
    by_cases h : degOf st.1 s == some 1 <;> simp [h]

/-- Two distinct members force length at least two. -/
theorem two_le_length_of_mem_ne {l : List String} {a b : String}
    (ha : a ∈ l) (hb : b ∈ l) (hab : a ≠ b) : 2 ≤ l.length := by
  rcases l with _ | ⟨x, xs⟩
  · simp at ha
  rcases xs with _ | ⟨y, ys⟩
  · simp at ha hb
    exact absurd (ha.trans hb.symm) hab
  · simp only [List.length_cons]
    omega

/-- In a duplicate-free list of length at least two, some member differs
from any given element. -/
theorem exists_ne_of_two_le_length {l : List String} (h2 : 2 ≤ l.length)
    (hnd : l.Nodup) (a : String) : ∃ b ∈ l, b ≠ a := by
  rcases l with _ | ⟨x, xs⟩
  · simp at h2
  · rcases xs with _ | ⟨y, ys⟩
    · simp at h2
    · simp only [List.nodup_cons, List.mem_cons] at hnd
      by_cases hx : x = a
      · refine ⟨y, by simp, ?_⟩
        intro hy
        exact hnd.1 (Or.inl (hx.trans hy.symm))
      · exact ⟨x, by simp, hx⟩

/-- With duplicate-free keys, a key determines its node. -/
theorem key_unique {g : DependencyGraph} (hnd : g.keys.Nodup) {a : String}
    {n1 n2 : DependencyNode} (h1 : (a, n1) ∈ g.nodes) (h2 : (a, n2) ∈ g.nodes) :
    n1 = n2 := by
  have e1 := findNode_of_mem hnd h1
  have e2 := findNode_of_mem hnd h2
  rw [e1] at e2
  exact Option.some_injective _ e2

/-- Removing a fresh element `q` from the exclusion set: the filtered
count drops by exactly one when `q` occurs in the (duplicate-free) list
and was not yet excluded. -/
theorem filter_excl_append_mem (L : List String) (hL : L.Nodup) (res : List String)
    (q : String) (hqL : q ∈ L) (hqres : q ∉ res) :
    ((L.filter (fun p => decide (p ∉ res ++ [q]))).length : Int) =
      ((L.filter (fun p => decide (p ∉ res))).length : Int) - 1 := by
  induction L with
  | nil => simp at hqL
  | cons x xs ih =>
    simp only [List.nodup_cons] at hL
    rcases List.mem_cons.mp hqL with h | h
    · have hxq : x = q := h.symm
      have htail : xs.filter (fun p => decide (p ∉ res ++ [q])) =
          xs.filter (fun p => decide (p ∉ res)) := by
        apply List.filter_congr
        intro p hp
        have hpq : p ≠ q := fun hh => hL.1 (hxq ▸ hh ▸ hp)
        simp [List.mem_append, hpq]
      rw [List.filter_cons, List.filter_cons, htail]
      have hc1 : (decide (x ∉ res ++ [q])) = false := by
        simp [hxq, List.mem_append]
      have hc2 : (decide (x ∉ res)) = true := by simp [hxq, hqres]
      rw [hc1, hc2]
      simp
    · have hxq : x ≠ q := fun hh => hL.1 (hh ▸ h)
      rw [List.filter_cons, List.filter_cons]
      have hsame : (decide (x ∉ res ++ [q])) = (decide (x ∉ res)) := by
        simp [List.mem_append, hxq]
      rw [hsame]
      have hih := ih hL.2 h
      by_cases hc : x ∈ res
      · have hcd : (decide (x ∉ res)) = false := by simp [hc]
        rw [hcd]
        simpa using hih
      · have hcd : (decide (x ∉ res)) = true := by simp [hc]
        rw [hcd]
        simp only [if_true, List.length_cons]
        push_cast
        omega

/-- Excluding a fresh element not occurring in the list changes
nothing. -/
theorem filter_excl_append_not_mem (L : List String) (res : List String)
    (q : String) (hqL : q ∉ L) :
    L.filter (fun p => decide (p ∉ res ++ [q])) =
      L.filter (fun p => decide (p ∉ res)) := by
  apply List.filter_congr
  intro p hp
  have hpq : p ≠ q := fun hh => hqL (hh ▸ hp)
  simp [List.mem_append, hpq]

/-- The loop invariant of Kahn's algorithm: the emitted prefix is a
duplicate-free respectful order, the queue holds exactly-ready nodes,
the in-degree table counts predecessors not yet emitted, and a node
outside both still waits for a predecessor. -/
structure KahnInv (g : DependencyGraph) (queue : List String)
    (deg : List (String × Int)) (result : List String) : Prop where
  res_nodup : result.Nodup
  q_nodup : queue.Nodup
  disj : ∀ x ∈ result, x ∉ queue
  res_keys : ∀ x ∈ result, x ∈ g.keys
  q_keys : ∀ x ∈ queue, x ∈ g.keys
  deg_val : ∀ k nk, g.findNode k = some nk →
    degOf deg k = some ((nk.predecessors.filter (fun p => decide (p ∉ result))).length : Int)
  q_ready : ∀ x ∈ queue, ∀ nx, g.findNode x = some nx →
    ∀ p ∈ nx.predecessors, p ∈ result
  res_order : ∀ x ∈ result, ∀ nx, g.findNode x = some nx →
    ∀ p ∈ nx.predecessors, p ∈ result ∧ result.indexOf p < result.indexOf x
  ready_found : ∀ k nk, g.findNode k = some nk → k ∉ result → k ∉ queue →
    ∃ p ∈ nk.predecessors, p ∉ result

/-- One pop of Kahn's loop preserves the invariant. -/
theorem kahnInv_step {g : DependencyGraph} (hwf : g.WF) (q : String) (rest : List String)
    (deg : List (String × Int)) (res : List String)
    (hinv : KahnInv g (q :: rest) deg res) :
    KahnInv g ((g.nodeSuccs q).foldl kahnStep (deg, rest)).2
      ((g.nodeSuccs q).foldl kahnStep (deg, rest)).1 (res ++ [q]) := by
  have hqkey : q ∈ g.keys := hinv.q_keys q (List.mem_cons_self _ _)
  obtain ⟨nq, hnq⟩ := Option.isSome_iff_exists.mp (findNode_isSome_iff.mpr hqkey)
  have hnqmem := findNode_mem hnq
  have hsuccs : g.nodeSuccs q = nq.successors := by
    simp [DependencyGraph.nodeSuccs, hnq]
  have hsnd : ((g.nodeSuccs q).foldl kahnStep (deg, rest)).2 =
      rest ++ nq.successors.filter (fun s => degOf deg s == some 1) := by
    rw [hsuccs]
    exact kahnFold_queue _ (hwf.succ_nodup _ hnqmem) (deg, rest)
  have hfst : ∀ k, degOf ((g.nodeSuccs q).foldl kahnStep (deg, rest)).1 k =
      if k ∈ nq.successors then (degOf deg k).map (· - 1) else degOf deg k := by
    intro k
    rw [hsuccs]
    exact kahnFold_deg _ (hwf.succ_nodup _ hnqmem) (deg, rest) k
  have hqres : q ∉ res := fun hq => hinv.disj q hq (List.mem_cons_self _ _)
  have hrest_nodup : rest.Nodup := (List.nodup_cons.mp hinv.q_nodup).2
  have hqrest : q ∉ rest := (List.nodup_cons.mp hinv.q_nodup).1
  have hmem_filtered : ∀ x, x ∈ nq.successors.filter (fun s => degOf deg s == some 1) ↔
      x ∈ nq.successors ∧ degOf deg x = some 1 := by
    intro x
    rw [List.mem_filter]
    simp
  have hrest_deg : ∀ x ∈ rest, degOf deg x = some 0 := by
    intro x hx
    have hxkey : x ∈ g.keys := hinv.q_keys x (List.mem_cons_of_mem _ hx)
    obtain ⟨nx, hnx⟩ := Option.isSome_iff_exists.mp (findNode_isSome_iff.mpr hxkey)
    have h0 : nx.predecessors.filter (fun p => decide (p ∉ res)) = [] := by
      rw [List.filter_eq_nil_iff]
      intro p hp
      simp [hinv.q_ready x (List.mem_cons_of_mem _ hx) nx hnx p hp]
    have hv := hinv.deg_val x nx hnx
    rw [h0] at hv
    simpa using hv
  have hres_deg : ∀ x ∈ res, degOf deg x = some 0 := by
    intro x hx
    have hxkey : x ∈ g.keys := hinv.res_keys x hx
    obtain ⟨nx, hnx⟩ := Option.isSome_iff_exists.mp (findNode_isSome_iff.mpr hxkey)
    have h0 : nx.predecessors.filter (fun p => decide (p ∉ res)) = [] := by
      rw [List.filter_eq_nil_iff]
      intro p hp
      simp [(hinv.res_order x hx nx hnx p hp).1]
    have hv := hinv.deg_val x nx hnx
    rw [h0] at hv
    simpa using hv
  have hiff : ∀ k nk, g.findNode k = some nk →
      (k ∈ nq.successors ↔ q ∈ nk.predecessors) := by
    intro k nk hnk
    exact hwf.succ_pred (q, nq) hnqmem (k, nk) (findNode_mem hnk)
  refine ⟨?_, ?_, ?_, ?_, ?_, ?_, ?_, ?_, ?_⟩
  · rw [List.nodup_append]
    refine ⟨hinv.res_nodup, List.nodup_singleton _, ?_⟩
    intro a ha hq1
    rw [List.mem_singleton] at hq1
    exact hqres (hq1 ▸ ha)
  · rw [hsnd, List.nodup_append]
    refine ⟨hrest_nodup, (hwf.succ_nodup _ hnqmem).filter _, ?_⟩
    intro a ha haf
    have h1 := ((hmem_filtered a).mp haf).2
    rw [hrest_deg a ha] at h1
    simp at h1
  · intro x hx
    rw [hsnd]
    intro hmem
    rcases List.mem_append.mp hmem with hm | hm
    · rcases List.mem_append.mp hx with hr | hq1
      · exact hinv.disj x hr (List.mem_cons_of_mem _ hm)
      · rw [List.mem_singleton] at hq1
        exact hqrest (hq1 ▸ hm)
    · rcases List.mem_append.mp hx with hr | hq1
      · have h1 := ((hmem_filtered x).mp hm).2
        rw [hres_deg x hr] at h1
        simp at h1
      · rw [List.mem_singleton] at hq1
        exact hwf.no_self (q, nq) hnqmem (hq1 ▸ ((hmem_filtered x).mp hm).1)
  · intro x hx
    rcases List.mem_append.mp hx with hr | hq1
    · exact hinv.res_keys x hr
    · rw [List.mem_singleton] at hq1
      exact hq1 ▸ hqkey
  · intro x hx
    rw [hsnd] at hx
    rcases List.mem_append.mp hx with hr | hm
    · exact hinv.q_keys x (List.mem_cons_of_mem _ hr)
    · exact hwf.succ_key (q, nq) hnqmem x ((hmem_filtered x).mp hm).1
  · intro k nk hnk
    rw [hfst k]
    by_cases hqp : q ∈ nk.predecessors
    · rw [if_pos ((hiff k nk hnk).mpr hqp), hinv.deg_val k nk hnk]
      simp only [Option.map_some']
      congr 1
      exact (filter_excl_append_mem nk.predecessors
        (hwf.pred_nodup _ (findNode_mem hnk)) res q hqp hqres).symm
    · rw [if_neg (fun hk => hqp ((hiff k nk hnk).mp hk)), hinv.deg_val k nk hnk]
      rw [filter_excl_append_not_mem nk.predecessors res q hqp]
  · intro x hx nx hnx
    rw [hsnd] at hx
    rcases List.mem_append.mp hx with hr | hm
    · intro p hp
      exact List.mem_append_left _ (hinv.q_ready x (List.mem_cons_of_mem _ hr) nx hnx p hp)
    · obtain ⟨hxsucc, hxdeg⟩ := (hmem_filtered x).mp hm
      have hqp : q ∈ nx.predecessors := (hiff x nx hnx).mp hxsucc
      have hval := hinv.deg_val x nx hnx
      rw [hxdeg] at hval
      have hlen : (nx.predecessors.filter (fun p => decide (p ∉ res))).length = 1 := by
        have := Option.some_injective _ hval
        omega
      intro p hp
      by_contra hpmem
      have hpres : p ∉ res := fun hr => hpmem (List.mem_append_left _ hr)
      have hpq : p ≠ q := fun hh => hpmem (List.mem_append_right _ (hh ▸ List.mem_singleton_self _))
      have hpf : p ∈ nx.predecessors.filter (fun p => decide (p ∉ res)) := by
        rw [List.mem_filter]
        simp [hp, hpres]
      have hqf : q ∈ nx.predecessors.filter (fun p => decide (p ∉ res)) := by
        rw [List.mem_filter]
        simp [hqp, hqres]
      have := two_le_length_of_mem_ne hpf hqf hpq
      omega
  · intro x hx nx hnx
    rcases List.mem_append.mp hx with hr | hq1
    · intro p hp
      obtain ⟨hp1, hp2⟩ := hinv.res_order x hr nx hnx p hp
      refine ⟨List.mem_append_left _ hp1, ?_⟩
      rw [List.indexOf_append_of_mem hp1, List.indexOf_append_of_mem hr]
      exact hp2
    · rw [List.mem_singleton] at hq1
      subst hq1
      have hnxq : nx = nq := by
        rw [hnq] at hnx
        exact (Option.some_injective _ hnx).symm
      intro p hp
      have hpres : p ∈ res :=
        hinv.q_ready x (List.mem_cons_self _ _) nx hnx p hp
      refine ⟨List.mem_append_left _ hpres, ?_⟩
      rw [List.indexOf_append_of_mem hpres, List.indexOf_append_of_not_mem hqres]
      have h1 : List.indexOf p res < res.length := List.indexOf_lt_length.mpr hpres
      have h2 : List.indexOf x [x] = 0 := List.indexOf_cons_self _ _
      omega
  · intro k nk hnk hkres hkq
    rw [hsnd] at hkq
    have hkres' : k ∉ res := fun hr => hkres (List.mem_append_left _ hr)
    have hkq' : k ≠ q := fun hh => hkres (List.mem_append_right _ (hh ▸ List.mem_singleton_self _))
    have hkrest : k ∉ rest := fun hr => hkq (List.mem_append_left _ hr)
    have hkfil : k ∉ nq.successors.filter (fun s => degOf deg s == some 1) :=
      fun hm => hkq (List.mem_append_right _ hm)
    have hkqueue : k ∉ q :: rest := by
      simp [hkq', hkrest]
    obtain ⟨p, hp, hpres⟩ := hinv.ready_found k nk hnk hkres' hkqueue
    by_cases hqp : q ∈ nk.predecessors
    · have hksucc : k ∈ nq.successors := (hiff k nk hnk).mpr hqp
      have hkdeg : degOf deg k ≠ some 1 := by
        intro hd
        exact hkfil ((hmem_filtered k).mpr ⟨hksucc, hd⟩)
      have hval := hinv.deg_val k nk hnk
      have hlen1 : (nk.predecessors.filter (fun p => decide (p ∉ res))).length ≠ 1 := by
        intro h1
        apply hkdeg
        rw [hval, h1]
        rfl
      have hpf : p ∈ nk.predecessors.filter (fun p => decide (p ∉ res)) := by
        rw [List.mem_filter]
        simp [hp, hpres]
      have hge1 : 1 ≤ (nk.predecessors.filter (fun p => decide (p ∉ res))).length :=
        List.length_pos.mpr (fun hnil => by rw [hnil] at hpf; simp at hpf)
      have hge2 : 2 ≤ (nk.predecessors.filter (fun p => decide (p ∉ res))).length := by
        omega
      obtain ⟨p', hp'f, hp'q⟩ := exists_ne_of_two_le_length hge2
        ((hwf.pred_nodup _ (findNode_mem hnk)).filter _) q
      obtain ⟨hp'mem, hp'res⟩ := List.mem_filter.mp hp'f
      refine ⟨p', hp'mem, ?_⟩
      intro hmem
      rcases List.mem_append.mp hmem with hm | hm
      · have hp'res2 : p' ∉ res := by simpa using hp'res
        exact hp'res2 hm
      · rw [List.mem_singleton] at hm
        exact hp'q hm
    · refine ⟨p, hp, ?_⟩
      intro hmem
      rcases List.mem_append.mp hmem with hm | hm
      · exact hpres hm
      · rw [List.mem_singleton] at hm
        exact hqp (hm ▸ hp)

/-- The in-degree table `topological_sort` builds. -/
theorem degOf_init (g : DependencyGraph) (k : String) (nk : DependencyNode)
    (hnk : g.findNode k = some nk) :
    degOf (g.nodes.map (fun p => (p.1, (p.2.predecessors.length : Int)))) k =
      some ((nk.predecessors.length : Int)) := by
  simp only [DependencyGraph.findNode] at hnk
  rcases hf : g.nodes.find? (fun p => p.1 == k) with _ | pr
  · rw [hf] at hnk; simp at hnk
  · rw [hf] at hnk
    have hpr2 : pr.2 = nk := by simpa using hnk
    simp only [degOf]
    rw [List.find?_map]
    have hcomp : ((fun p : String × Int => p.1 == k) ∘
        (fun p : String × DependencyNode => (p.1, (p.2.predecessors.length : Int)))) =
        (fun p : String × DependencyNode => p.1 == k) := rfl
    rw [hcomp, hf]
    simp [hpr2]

/-- The invariant holds at the start of Kahn's loop. -/
theorem kahnInv_init {g : DependencyGraph} (hwf : g.WF) :
    KahnInv g ((g.nodes.filter (fun p => p.2.predecessors.length == 0)).map Prod.fst)
      (g.nodes.map (fun p => (p.1, (p.2.predecessors.length : Int)))) [] := by
  have hsub : ((g.nodes.filter (fun p => p.2.predecessors.length == 0)).map
      Prod.fst).Sublist g.keys := (List.filter_sublist _).map _
  have hqmem : ∀ x ∈ (g.nodes.filter
      (fun p => p.2.predecessors.length == 0)).map Prod.fst,
      ∃ nx, g.findNode x = some nx ∧ nx.predecessors = [] := by
    intro x hx
    obtain ⟨pr, hprf, hpr1⟩ := List.mem_map.mp hx
    obtain ⟨hprmem, hprlen⟩ := List.mem_filter.mp hprf
    have hlen : pr.2.predecessors.length = 0 := by simpa using hprlen
    have hnil : pr.2.predecessors = [] := List.length_eq_zero.mp hlen
    refine ⟨pr.2, ?_, hnil⟩
    rw [← hpr1]
    exact findNode_of_mem hwf.keys_nodup (by rw [← Prod.mk.eta (p := pr)] at hprmem; exact hprmem)
  refine ⟨List.nodup_nil, hwf.keys_nodup.sublist hsub, by simp, by simp, ?_, ?_, ?_, by simp, ?_⟩
  · intro x hx
    exact hsub.subset hx
  · intro k nk hnk
    rw [degOf_init g k nk hnk]
    have : nk.predecessors.filter (fun p => decide (p ∉ ([] : List String))) =
        nk.predecessors := by
      apply List.filter_eq_self.mpr
      intro p _
      simp
    rw [this]
  · intro x hx nx hnx p hp
    obtain ⟨nx', hnx', hnil⟩ := hqmem x hx
    rw [hnx'] at hnx
    have : nx' = nx := Option.some_injective _ hnx
    rw [← this, hnil] at hp
    simp at hp
  · intro k nk hnk _ hkq
    rcases hnil : nk.predecessors with _ | ⟨p, ps⟩
    · exfalso
      apply hkq
      have hkmem := findNode_mem hnk
      have : (k, nk) ∈ g.nodes.filter (fun p => p.2.predecessors.length == 0) := by
        rw [List.mem_filter]
        exact ⟨hkmem, by simp [hnil]⟩
      simpa using List.mem_map_of_mem Prod.fst this
    · exact ⟨p, List.mem_cons_self _ _, by simp⟩

/-- A completed Kahn loop preserves the invariant down to the empty
queue. -/
theorem kahnLoop_post {g : DependencyGraph} (hwf : g.WF) :
    ∀ (fuel : Nat) (q : List String) (deg : List (String × Int)) (res : List String),
    KahnInv g q deg res → ∀ out, kahnLoop g fuel q deg res = some out →
    ∃ deg', KahnInv g [] deg' out := by
  intro fuel
  induction fuel with
  | zero =>
    intro q deg res hinv out h
    rcases q with _ | ⟨q, rest⟩
    · rw [kahnLoop_nil] at h
      exact ⟨deg, (Option.some_injective _ h) ▸ hinv⟩
    · rw [kahnLoop_zero_cons] at h
      simp at h
  | succ fuel ih =>
    intro q deg res hinv out h
    rcases q with _ | ⟨q, rest⟩
    · rw [kahnLoop_nil] at h
      exact ⟨deg, (Option.some_injective _ h) ▸ hinv⟩
    · rw [kahnLoop_succ_cons] at h
      exact ih _ _ _ (kahnInv_step hwf q rest deg res hinv) out h

/-- A successful topological sort leaves the final invariant and the
full length. -/
theorem topological_sort_ok_inv {g : DependencyGraph} (hwf : g.WF) (l : List String)
    (h : g.topological_sort = .ok l) :
    (∃ deg', KahnInv g [] deg' l) ∧ l.length = g.nodes.length := by
  by_cases hc : g.has_cycle
  · rw [DependencyGraph.topological_sort, if_pos hc] at h
    simp at h
  · simp only [DependencyGraph.topological_sort, if_neg hc] at h
    rcases hk : kahnLoop g
        (((g.nodes.filter (fun p => p.2.predecessors.length == 0)).map Prod.fst).length +
          phi (g.nodes.map (fun p => (p.1, (p.2.predecessors.length : Int)))) + 1)
        ((g.nodes.filter (fun p => p.2.predecessors.length == 0)).map Prod.fst)
        (g.nodes.map (fun p => (p.1, (p.2.predecessors.length : Int)))) []
        with _ | result
    · rw [hk] at h; simp at h
    · rw [hk] at h
      change (if result.length ≠ g.nodes.length then
          Except.error "Topological sort failed: dependency graph has cycles"
        else Except.ok result) = Except.ok l at h
      by_cases hlen : result.length ≠ g.nodes.length
      · rw [if_pos hlen] at h; simp at h
      · rw [if_neg hlen] at h
        have hrl : result = l := by simpa using h
        subst hrl
        push_neg at hlen
        exact ⟨kahnLoop_post hwf _ _ _ _ (kahnInv_init hwf) result hk, hlen⟩

/-- The key facts behind claim C3's success branch. -/
theorem topological_sort_ok_props {g : DependencyGraph} (hwf : g.WF) (l : List String)
    (h : g.topological_sort = .ok l) :
    l.Nodup ∧ (∀ k, k ∈ l ↔ k ∈ g.keys) ∧
      (∀ a b, g.Edge a b → l.indexOf a < l.indexOf b) := by
  obtain ⟨⟨deg', hinv⟩, hlen⟩ := topological_sort_ok_inv hwf l h
  have hsubset : ∀ x ∈ l, x ∈ g.keys := hinv.res_keys
  have hkeyslen : g.keys.length = g.nodes.length := by
    simp [DependencyGraph.keys]
  have hcomplete : ∀ k ∈ g.keys, k ∈ l := by
    intro k hk
    have hsub : l.toFinset ⊆ g.keys.toFinset := by
      intro x hx
      exact List.mem_toFinset.mpr (hsubset x (List.mem_toFinset.mp hx))
    have hc1 : l.toFinset.card = l.length := List.toFinset_card_of_nodup hinv.res_nodup
    have hc2 : g.keys.toFinset.card = g.keys.length :=
      List.toFinset_card_of_nodup hwf.keys_nodup
    have heq : l.toFinset = g.keys.toFinset := by
      apply Finset.eq_of_subset_of_card_le hsub
      rw [hc1, hc2, hlen, hkeyslen]
    rw [← List.mem_toFinset, ← heq, List.mem_toFinset] at hk
    exact hk
  refine ⟨hinv.res_nodup, fun k => ⟨hsubset k, hcomplete k⟩, ?_⟩
  intro a b hedge
  obtain ⟨na, hna, hbsucc⟩ := hedge
  have hbkey : b ∈ g.keys := hwf.succ_key (a, na) (findNode_mem hna) b hbsucc
  obtain ⟨nb, hnb⟩ := Option.isSome_iff_exists.mp (findNode_isSome_iff.mpr hbkey)
  have hapred : a ∈ nb.predecessors :=
    (hwf.succ_pred (a, na) (findNode_mem hna) (b, nb) (findNode_mem hnb)).mp hbsucc
  exact (hinv.res_order b (hcomplete b hbkey) nb hnb a hapred).2

/-- A transitive edge path descends strictly in a respectful order. -/
theorem transGen_indexOf {g : DependencyGraph} {l : List String}
    (horder : ∀ a b, g.Edge a b → l.indexOf a < l.indexOf b) {a b : String}
    (h : Relation.TransGen g.Edge a b) : l.indexOf a < l.indexOf b := by
  induction h with
  | single he => exact horder _ _ he
  | tail _ he ih => exact lt_trans ih (horder _ _ he)

/-- Chasing predecessors inside a finite pred-closed set yields a
cycle. -/
theorem cycle_of_pred_closed {g : DependencyGraph} (M : List String) (hne : M ≠ [])
    (h : ∀ m ∈ M, ∃ p, p ∈ M ∧ g.Edge p m) :
    ∃ a, Relation.TransGen g.Edge a a := by
  obtain ⟨m₀, hm₀⟩ := List.exists_mem_of_ne_nil M hne
  classical
  let f : {x // x ∈ M} → {x // x ∈ M} := fun x =>
    ⟨(h x.1 x.2).choose, (h x.1 x.2).choose_spec.1⟩
  have hf : ∀ x : {x // x ∈ M}, g.Edge (f x).1 x.1 := fun x => (h x.1 x.2).choose_spec.2
  let chain : Nat → {x // x ∈ M} := fun n => f^[n] ⟨m₀, hm₀⟩
  have hchain : ∀ n, g.Edge (chain (n + 1)).1 (chain n).1 := by
    intro n
    have hstep : chain (n + 1) = f (chain n) := Function.iterate_succ_apply' f n _
    rw [hstep]
    exact hf (chain n)
  have htrans : ∀ i j, i < j → Relation.TransGen g.Edge (chain j).1 (chain i).1 := by
    intro i j hij
    induction j with
    | zero => omega
    | succ j ihj =>
      rcases Nat.lt_succ_iff_lt_or_eq.mp hij with h1 | h1
      · exact Relation.TransGen.head (hchain j) (ihj h1)
      · rw [h1]
        exact Relation.TransGen.single (hchain j)
  have hMlen : 0 < M.length := List.length_pos.mpr hne
  have hpig := Fintype.exists_ne_map_eq_of_card_lt
    (fun i : Fin (M.length + 1) =>
      (⟨M.indexOf (chain i.1).1, List.indexOf_lt_length.mpr (chain i.1).2⟩ : Fin M.length))
    (by simp)
  obtain ⟨i, j, hij, heq⟩ := hpig
  have heq' : (chain i.1).1 = (chain j.1).1 := by
    have h1 : M.indexOf (chain i.1).1 = M.indexOf (chain j.1).1 := by
      simpa using congrArg Fin.val heq
    exact (List.indexOf_inj (chain i.1).2 (chain j.1).2).mp h1
  rcases lt_or_gt_of_ne (fun hh : i.1 = j.1 => hij (Fin.ext hh)) with hlt | hlt
  · exact ⟨(chain j.1).1, heq' ▸ htrans i.1 j.1 hlt⟩
  · exact ⟨(chain i.1).1, heq' ▸ htrans j.1 i.1 hlt⟩

/-- Duplicate-free sublists of the keys are no longer than the keys. -/
theorem nodup_subset_length_le {l keys : List String} (hnd : l.Nodup)
    (hsub : ∀ x ∈ l, x ∈ keys) : l.length ≤ keys.length := by
  classical
  have h1 : l.toFinset.card = l.length := List.toFinset_card_of_nodup hnd
  have h2 : l.toFinset ⊆ keys.toFinset := by
    intro x hx
    exact List.mem_toFinset.mpr (hsub x (List.mem_toFinset.mp hx))
  calc l.length = l.toFinset.card := h1.symm
    _ ≤ keys.toFinset.card := Finset.card_le_card h2
    _ ≤ keys.length := List.toFinset_card_le _

/-- On an acyclic well-formed graph `topological_sort` succeeds. -/
theorem topological_sort_acyclic_ok {g : DependencyGraph} (hwf : g.WF)
    (hacyc : g.Acyclic) : ∃ l, g.topological_sort = .ok l := by
  have hc : g.has_cycle = false := has_cycle_false_of_acyclic hacyc
  have hc' : ¬ g.has_cycle = true := by simp [hc]
  have hsome := kahnLoop_isSome g
    (((g.nodes.filter (fun p => p.2.predecessors.length == 0)).map Prod.fst).length +
      phi (g.nodes.map (fun p => (p.1, (p.2.predecessors.length : Int)))) + 1)
    ((g.nodes.filter (fun p => p.2.predecessors.length == 0)).map Prod.fst)
    (g.nodes.map (fun p => (p.1, (p.2.predecessors.length : Int)))) [] (by omega)
  obtain ⟨result, hk⟩ := Option.isSome_iff_exists.mp hsome
  obtain ⟨deg', hinv⟩ := kahnLoop_post hwf _ _ _ _ (kahnInv_init hwf) result hk
  have hkeyslen : g.keys.length = g.nodes.length := by simp [DependencyGraph.keys]
  have hlen : result.length = g.nodes.length := by
    by_contra hlen
    have hle : result.length ≤ g.keys.length :=
      nodup_subset_length_le hinv.res_nodup hinv.res_keys
    have hmissing : ∃ k ∈ g.keys, k ∉ result := by
      by_contra hall
      push_neg at hall
      have := nodup_subset_length_le hwf.keys_nodup hall
      omega
    obtain ⟨k0, hk0, hk0r⟩ := hmissing
    set M := g.keys.filter (fun k => decide (k ∉ result)) with hM
    have hk0M : k0 ∈ M := by
      rw [hM, List.mem_filter]
      simp [hk0, hk0r]
    have hMne : M ≠ [] := fun hnil => by rw [hnil] at hk0M; simp at hk0M
    have hclosed : ∀ m ∈ M, ∃ p, p ∈ M ∧ g.Edge p m := by
      intro m hm
      obtain ⟨hmk, hmres⟩ := List.mem_filter.mp hm
      have hmres' : m ∉ result := by simpa using hmres
      obtain ⟨nm, hnm⟩ := Option.isSome_iff_exists.mp (findNode_isSome_iff.mpr hmk)
      obtain ⟨p, hp, hpres⟩ := hinv.ready_found m nm hnm hmres' (by simp)
      have hpk : p ∈ g.keys := hwf.pred_key (m, nm) (findNode_mem hnm) p hp
      obtain ⟨np, hnp⟩ := Option.isSome_iff_exists.mp (findNode_isSome_iff.mpr hpk)
      refine ⟨p, ?_, ?_⟩
      · rw [hM, List.mem_filter]
        simp [hpk, hpres]
      · exact ⟨np, hnp,
          (hwf.succ_pred (p, np) (findNode_mem hnp) (m, nm) (findNode_mem hnm)).mpr hp⟩
    obtain ⟨a, ha⟩ := cycle_of_pred_closed M hMne hclosed
    exact hacyc a ha
  refine ⟨result, ?_⟩
  simp only [DependencyGraph.topological_sort, if_neg hc']
  rw [hk]
  change (if result.length ≠ g.nodes.length then
      Except.error "Topological sort failed: dependency graph has cycles"
    else Except.ok result) = Except.ok result
  rw [if_neg (by simp [hlen])]

/-- A successful topological sort certifies acyclicity. -/
theorem acyclic_of_topo_ok {g : DependencyGraph} (hwf : g.WF) {l : List String}
    (h : g.topological_sort = .ok l) : g.Acyclic := by
  intro a ha
  have hprops := topological_sort_ok_props hwf l h
  exact lt_irrefl _ (transGen_indexOf hprops.2.2 ha)

/-- C3: on a well-formed graph, `topological_sort` succeeds exactly on
acyclic dependency relations — returning every node id exactly once
(length equal to the node count) with every dependency's predecessor
before its successor — and fails with an error on every graph containing
a cycle. -/
theorem topological_sort_spec (g : DependencyGraph) (hwf : g.WF) :
    (g.Acyclic → ∃ l, g.topological_sort = .ok l ∧ l.length = g.nodes.length ∧
      (∀ k, l.count k = if k ∈ g.keys then 1 else 0) ∧
      (∀ d ∈ g.dependencies,
        l.indexOf d.predecessor_id < l.indexOf d.successor_id)) ∧
    ((∃ a, Relation.TransGen g.Edge a a) → ∃ e, g.topological_sort = .error e) := by
  constructor
  · intro hacyc
    obtain ⟨l, hok⟩ := topological_sort_acyclic_ok hwf hacyc
    obtain ⟨hnd, hmem, horder⟩ := topological_sort_ok_props hwf l hok
    obtain ⟨_, hlen⟩ := topological_sort_ok_inv hwf l hok
    refine ⟨l, hok, hlen, ?_, ?_⟩
    · intro k
      by_cases hk : k ∈ g.keys
      · rw [if_pos hk]
        exact List.count_eq_one_of_mem hnd ((hmem k).mpr hk)
      · rw [if_neg hk]
        exact List.count_eq_zero.mpr (fun hkl => hk ((hmem k).mp hkl))
    · intro d hd
      obtain ⟨p, hpmem, hp1, hpsucc⟩ := hwf.dep_edge d hd
      have hfind : g.findNode d.predecessor_id = some p.2 := by
        apply findNode_of_mem hwf.keys_nodup
        rw [← hp1]
        exact (Prod.mk.eta (p := p)) ▸ hpmem
      exact horder _ _ ⟨p.2, hfind, hpsucc⟩
  · intro hcyc
    rcases hts : g.topological_sort with e | l
    · exact ⟨e, rfl⟩
    · obtain ⟨a, ha⟩ := hcyc
      obtain ⟨_, _, horder⟩ := topological_sort_ok_props hwf l hts
      exact absurd (transGen_indexOf horder ha) (lt_irrefl _)

/-- The `"x"`/`"y"` graph with a finish-to-start edge, for the C3
witness. -/
def gC3 : DependencyGraph :=
  (xyGraph.add_dependency
    { predecessor_id := "x", successor_id := "y",
      dependency_type := "finish_to_start" }).toOption.getD DependencyGraph.empty

/-- The witness graph is well-formed. -/
theorem gC3_wf : gC3.WF :=
  ⟨by decide, by decide, by decide, by decide, by decide, by decide, by decide, by decide⟩

/-- C3 witness: the success branch applied to the concrete acyclic
two-node graph. -/
theorem topological_sort_spec_witness :
    ∃ l, gC3.topological_sort = .ok l ∧ l.length = gC3.nodes.length ∧
      (∀ k, l.count k = if k ∈ gC3.keys then 1 else 0) ∧
      (∀ d ∈ gC3.dependencies,
        l.indexOf d.predecessor_id < l.indexOf d.successor_id) :=
  (topological_sort_spec gC3 gC3_wf).1
    (acyclic_of_topo_ok gC3_wf (show gC3.topological_sort = .ok ["x", "y"] from rfl))

/-! ### The stable sort: membership and sortedness -/

theorem mem_insertSorted {α : Type} (le : α → α → Bool) (x : α) :
    ∀ (l : List α) (y : α), y ∈ insertSorted le x l ↔ y = x ∨ y ∈ l := by
  intro l
  induction l with
  | nil => intro y; simp [insertSorted]
  | cons z zs ih =>
    intro y
    simp only [insertSorted]
    by_cases h : le z x
    · rw [if_pos h]
      simp only [List.mem_cons, ih]
      tauto
    · rw [if_neg h]
      simp

theorem mem_insertionSort {α : Type} (le : α → α → Bool) :
    ∀ (l : List α) (y : α), y ∈ insertionSort le l ↔ y ∈ l := by
  intro l
  induction l with
  | nil => intro y; simp [insertionSort]
  | cons z zs ih =>
    intro y
    simp only [insertionSort, mem_insertSorted, List.mem_cons, ih]

theorem pairwise_insertSorted {α : Type} (le : α → α → Bool)
    (htot : ∀ a b, le a b = true ∨ le b a = true)
    (htrans : ∀ a b c, le a b = true → le b c = true → le a c = true)
    (x : α) : ∀ (l : List α), l.Pairwise (fun a b => le a b = true) →
    (insertSorted le x l).Pairwise (fun a b => le a b = true) := by
  intro l
  induction l with
  | nil => intro _; simp [insertSorted]
  | cons z zs ih =>
    intro hp
    rw [List.pairwise_cons] at hp
    simp only [insertSorted]
    by_cases h : le z x = true
    · rw [if_pos h]
      rw [List.pairwise_cons]
      refine ⟨?_, ih hp.2⟩
      intro y hy
      rcases (mem_insertSorted le x zs y).mp hy with h1 | h1
      · rw [h1]; exact h
      · exact hp.1 y h1
    · rw [if_neg (by simpa using h)]
      rw [List.pairwise_cons]
      refine ⟨?_, List.pairwise_cons.mpr hp⟩
      intro y hy
      have hxz : le x z = true := (htot x z).resolve_right h
      rcases List.mem_cons.mp hy with h1 | h1
      · rw [h1]
        exact hxz
      · exact htrans x z y hxz (hp.1 y h1)

theorem pairwise_insertionSort {α : Type} (le : α → α → Bool)
    (htot : ∀ a b, le a b = true ∨ le b a = true)
    (htrans : ∀ a b c, le a b = true → le b c = true → le a c = true) :
    ∀ l : List α, (insertionSort le l).Pairwise (fun a b => le a b = true) := by
  intro l
  induction l with
  | nil => simp [insertionSort]
  | cons z zs ih => exact pairwise_insertSorted le htot htrans z _ ih

/-! ### CPM pass bookkeeping -/

theorem except_bind_ok {α β : Type} {x : Except String α} {f : α → Except String β}
    {b : β} (h : (x >>= f) = .ok b) : ∃ a, x = .ok a ∧ f a = .ok b := by
  cases x with
  | error e => simp [Bind.bind, Except.bind] at h
  | ok a => exact ⟨a, rfl, by simpa [Bind.bind, Except.bind] using h⟩

/-- A successful forward visit reads the node and rewrites only its
earliest fields. -/
theorem forwardVisit_ok {t : Int} {g : DependencyGraph} {a : String}
    {g' : DependencyGraph} (h : forwardVisit t g a = .ok g') :
    ∃ node es, g.findNode a = some node ∧
      g' = g.updateNode a
        { node with
          earliest_start := some es
          earliest_finish := some (es + node.total_duration) } := by
  unfold forwardVisit at h
  rcases hn : g.findNode a with _ | node
  · rw [hn] at h
    exact absurd h (by simp)
  · rw [hn] at h
    replace h : (forwardES t g a node).bind (fun es =>
        Except.ok (g.updateNode a
          { node with
            earliest_start := some es
            earliest_finish := some (es + node.total_duration) })) = Except.ok g' := h
    rcases hE : forwardES t g a node with e | es
    · rw [hE] at h
      simp [Except.bind] at h
    · rw [hE] at h
      simp only [Except.bind, Except.ok.injEq] at h
      exact ⟨node, es, rfl, h.symm⟩

/-- A successful backward visit reads the node and rewrites only its
latest fields. -/
theorem backwardVisit_ok {pe : Int} {g : DependencyGraph} {a : String}
    {g' : DependencyGraph} (h : backwardVisit pe g a = .ok g') :
    ∃ node lf, g.findNode a = some node ∧
      g' = g.updateNode a
        { node with
          latest_finish := some lf
          latest_start := some (lf - node.total_duration) } := by
  unfold backwardVisit at h
  rcases hn : g.findNode a with _ | node
  · rw [hn] at h
    exact absurd h (by simp)
  · rw [hn] at h
    replace h : (backwardLF pe g a node).bind (fun lf =>
        Except.ok (g.updateNode a
          { node with
            latest_finish := some lf
            latest_start := some (lf - node.total_duration) })) = Except.ok g' := h
    rcases hE : backwardLF pe g a node with e | lf
    · rw [hE] at h
      simp [Except.bind] at h
    · rw [hE] at h
      simp only [Except.bind, Except.ok.injEq] at h
      exact ⟨node, lf, rfl, h.symm⟩

/-- `updateNode` with unchanged predecessor/successor sets preserves
well-formedness. -/
theorem WF_updateNode {g : DependencyGraph} (hwf : g.WF) (id : String)
    {n : DependencyNode} (n' : DependencyNode) (hn : g.findNode id = some n)
    (hpred : n'.predecessors = n.predecessors)
    (hsucc : n'.successors = n.successors) : (g.updateNode id n').WF := by
  have hqn : ∀ q ∈ g.nodes, q.1 = id → q.2 = n := by
    intro q hq hid
    have hq' : (id, q.2) ∈ g.nodes := by
      rw [← hid]
      exact (Prod.mk.eta (p := q)) ▸ hq
    have := findNode_of_mem hwf.keys_nodup hq'
    rw [hn] at this
    exact (Option.some_injective _ this).symm
  have htrans : ∀ p ∈ (g.updateNode id n').nodes, ∃ q ∈ g.nodes,
      p.1 = q.1 ∧ p.2.predecessors = q.2.predecessors ∧
      p.2.successors = q.2.successors := by
    intro p hp
    simp only [DependencyGraph.updateNode, List.mem_map] at hp
    obtain ⟨q, hq, hpq⟩ := hp
    by_cases hid : q.1 = id
    · rw [if_pos (by simpa using hid)] at hpq
      refine ⟨q, hq, ?_⟩
      rw [← hpq, hqn q hq hid]
      exact ⟨rfl, hpred, hsucc⟩
    · rw [if_neg (by simpa using hid)] at hpq
      exact ⟨q, hq, by rw [hpq]; exact ⟨rfl, rfl, rfl⟩⟩
  have htrans' : ∀ q ∈ g.nodes, ∃ p ∈ (g.updateNode id n').nodes,
      p.1 = q.1 ∧ p.2.predecessors = q.2.predecessors ∧
      p.2.successors = q.2.successors := by
    intro q hq
    refine ⟨(if q.1 == id then (q.1, n') else q), ?_, ?_⟩
    · simp only [DependencyGraph.updateNode, List.mem_map]
      exact ⟨q, hq, rfl⟩
    · by_cases hid : q.1 = id
      · rw [if_pos (by simpa using hid)]
        refine ⟨rfl, ?_, ?_⟩
        · rw [hqn q hq hid]
          exact hpred
        · rw [hqn q hq hid]
          exact hsucc
      · rw [if_neg (by simpa using hid)]
        exact ⟨rfl, rfl, rfl⟩
  refine ⟨?_, ?_, ?_, ?_, ?_, ?_, ?_, ?_⟩
  · rw [keys_updateNode]
    exact hwf.keys_nodup
  · intro p hp s hs
    obtain ⟨q, hq, h1, _, h3⟩ := htrans p hp
    rw [keys_updateNode]
    exact hwf.succ_key q hq s (h3 ▸ hs)
  · intro p hp s hs
    obtain ⟨q, hq, h1, h2, _⟩ := htrans p hp
    rw [keys_updateNode]
    exact hwf.pred_key q hq s (h2 ▸ hs)
  · intro p hp
    obtain ⟨q, hq, _, _, h3⟩ := htrans p hp
    rw [h3]
    exact hwf.succ_nodup q hq
  · intro p hp
    obtain ⟨q, hq, _, h2, _⟩ := htrans p hp
    rw [h2]
    exact hwf.pred_nodup q hq
  · intro p hp
    obtain ⟨q, hq, h1, _, h3⟩ := htrans p hp
    rw [h1, h3]
    exact hwf.no_self q hq
  · intro p hp p' hp'
    obtain ⟨q, hq, h1, h2, h3⟩ := htrans p hp
    obtain ⟨q', hq', h1', h2', h3'⟩ := htrans p' hp'
    rw [h1, h1', h2', h3]
    exact hwf.succ_pred q hq q' hq'
  · intro d hd
    rw [dependencies_updateNode] at hd
    obtain ⟨q, hq, hq1, hq2⟩ := hwf.dep_edge d hd
    obtain ⟨p, hp, h1, _, h3⟩ := htrans' q hq
    exact ⟨p, hp, h1.trans hq1, h3 ▸ hq2⟩

/-- Both earliest fields of the node under `id` are set. -/
def esSet (g : DependencyGraph) (id : String) : Prop :=
  ∃ n, g.findNode id = some n ∧ n.earliest_start.isSome ∧ n.earliest_finish.isSome

/-- Both latest fields of the node under `id` are set. -/
def lsSet (g : DependencyGraph) (id : String) : Prop :=
  ∃ n, g.findNode id = some n ∧ n.latest_start.isSome ∧ n.latest_finish.isSome

theorem forwardVisit_props {t : Int} {g : DependencyGraph} {a : String}
    {g' : DependencyGraph} (h : forwardVisit t g a = .ok g') :
    g'.keys = g.keys ∧ g'.dependencies = g.dependencies ∧ (g.WF → g'.WF) ∧
    esSet g' a ∧ (∀ id, esSet g id → esSet g' id) ∧
    (∀ id, lsSet g id → lsSet g' id) := by
  obtain ⟨node, es, hn, hg'⟩ := forwardVisit_ok h
  subst hg'
  have hself : ∀ id', id' = a → (g.updateNode a
      { node with
        earliest_start := some es
        earliest_finish := some (es + node.total_duration) }).findNode id' =
      some { node with
        earliest_start := some es
        earliest_finish := some (es + node.total_duration) } := by
    intro id' hid'
    rw [hid', findNode_updateNode_self, hn]
    simp
  refine ⟨keys_updateNode _ _ _, rfl, fun hwf => WF_updateNode hwf a _ hn rfl rfl, ?_, ?_, ?_⟩
  · exact ⟨_, hself a rfl, by simp, by simp⟩
  · intro id hid
    by_cases hida : id = a
    · exact ⟨_, hself id hida, by simp, by simp⟩
    · obtain ⟨n0, hn0, h1, h2⟩ := hid
      exact ⟨n0, by rw [findNode_updateNode_other _ _ _ _ hida]; exact hn0, h1, h2⟩
  · intro id hid
    by_cases hida : id = a
    · obtain ⟨n0, hn0, h1, h2⟩ := hid
      rw [hida, hn] at hn0
      have hn0' : n0 = node := Option.some_injective _ hn0.symm
      subst hn0'
      exact ⟨_, hself id hida, h1, h2⟩
    · obtain ⟨n0, hn0, h1, h2⟩ := hid
      exact ⟨n0, by rw [findNode_updateNode_other _ _ _ _ hida]; exact hn0, h1, h2⟩

theorem backwardVisit_props {pe : Int} {g : DependencyGraph} {a : String}
    {g' : DependencyGraph} (h : backwardVisit pe g a = .ok g') :
    g'.keys = g.keys ∧ g'.dependencies = g.dependencies ∧ (g.WF → g'.WF) ∧
    lsSet g' a ∧ (∀ id, lsSet g id → lsSet g' id) ∧
    (∀ id, esSet g id → esSet g' id) := by
  obtain ⟨node, lf, hn, hg'⟩ := backwardVisit_ok h
  subst hg'
  have hself : ∀ id', id' = a → (g.updateNode a
      { node with
        latest_finish := some lf
        latest_start := some (lf - node.total_duration) }).findNode id' =
      some { node with
        latest_finish := some lf
        latest_start := some (lf - node.total_duration) } := by
    intro id' hid'
    rw [hid', findNode_updateNode_self, hn]
    simp
  refine ⟨keys_updateNode _ _ _, rfl, fun hwf => WF_updateNode hwf a _ hn rfl rfl, ?_, ?_, ?_⟩
  · exact ⟨_, hself a rfl, by simp, by simp⟩
  · intro id hid
    by_cases hida : id = a
    · exact ⟨_, hself id hida, by simp, by simp⟩
    · obtain ⟨n0, hn0, h1, h2⟩ := hid
      exact ⟨n0, by rw [findNode_updateNode_other _ _ _ _ hida]; exact hn0, h1, h2⟩
  · intro id hid
    by_cases hida : id = a
    · obtain ⟨n0, hn0, h1, h2⟩ := hid
      rw [hida, hn] at hn0
      have hn0' : n0 = node := Option.some_injective _ hn0.symm
      subst hn0'
      exact ⟨_, hself id hida, h1, h2⟩
    · obtain ⟨n0, hn0, h1, h2⟩ := hid
      exact ⟨n0, by rw [findNode_updateNode_other _ _ _ _ hida]; exact hn0, h1, h2⟩

theorem forward_fold_props (t : Int) : ∀ (topo : List String) (g g' : DependencyGraph),
    topo.foldlM (forwardVisit t) g = .ok g' →
    g'.keys = g.keys ∧ g'.dependencies = g.dependencies ∧ (g.WF → g'.WF) ∧
    (∀ id, esSet g id → esSet g' id) ∧ (∀ id ∈ topo, esSet g' id) := by
  intro topo
  induction topo with
  | nil =>
    intro g g' h
    have hg : g' = g := by
      simpa [List.foldlM, pure, Except.pure] using h.symm
    subst hg
    exact ⟨rfl, rfl, id, fun _ h => h, by simp⟩
  | cons a rest ih =>
    intro g g' h
    rw [List.foldlM_cons] at h
    obtain ⟨g1, h1, h2⟩ := except_bind_ok h
    obtain ⟨k1, d1, w1, s1, p1, l1⟩ := forwardVisit_props h1
    obtain ⟨k2, d2, w2, p2, c2⟩ := ih g1 g' h2
    refine ⟨k2.trans k1, d2.trans d1, fun hwf => w2 (w1 hwf), fun id hid => p2 id (p1 id hid), ?_⟩
    intro id hid
    rcases List.mem_cons.mp hid with h3 | h3
    · exact h3 ▸ p2 a s1
    · exact c2 id h3

theorem backward_fold_lsSet_pres (pe : Int) : ∀ (topo : List String)
    (g g' : DependencyGraph), topo.foldlM (backwardVisit pe) g = .ok g' →
    ∀ id, lsSet g id → lsSet g' id := by
  intro topo
  induction topo with
  | nil =>
    intro g g' h
    have hg : g' = g := by
      simpa [List.foldlM, pure, Except.pure] using h.symm
    subst hg
    exact fun _ h => h
  | cons b bs ihb =>
    intro g g' h
    rw [List.foldlM_cons] at h
    obtain ⟨gz, hz1, hz2⟩ := except_bind_ok h
    intro id hid
    exact ihb gz g' hz2 id ((backwardVisit_props hz1).2.2.2.2.1 id hid)

theorem backward_fold_props (pe : Int) : ∀ (topo : List String) (g g' : DependencyGraph),
    topo.foldlM (backwardVisit pe) g = .ok g' →
    g'.keys = g.keys ∧ g'.dependencies = g.dependencies ∧ (g.WF → g'.WF) ∧
    (∀ id, esSet g id → esSet g' id) ∧ (∀ id ∈ topo, lsSet g' id) := by
  intro topo
  induction topo with
  | nil =>
    intro g g' h
    have hg : g' = g := by
      simpa [List.foldlM, pure, Except.pure] using h.symm
    subst hg
    exact ⟨rfl, rfl, id, fun _ h => h, by simp⟩
  | cons a rest ih =>
    intro g g' h
    rw [List.foldlM_cons] at h
    obtain ⟨g1, h1, h2⟩ := except_bind_ok h
    obtain ⟨k1, d1, w1, s1, p1, e1⟩ := backwardVisit_props h1
    obtain ⟨k2, d2, w2, p2, c2⟩ := ih g1 g' h2
    refine ⟨k2.trans k1, d2.trans d1, fun hwf => w2 (w1 hwf), fun id hid => p2 id (e1 id hid), ?_⟩
    intro id hid
    rcases List.mem_cons.mp hid with h3 | h3
    · exact h3 ▸ backward_fold_lsSet_pres pe rest g1 g' h2 a s1
    · exact c2 id h3

/-- The per-node transformation `_calculate_slack` applies. -/
def slackFn (n : DependencyNode) : DependencyNode :=
  match n.latest_start, n.earliest_start with
  | some ls, some es => { n with slack := ls - es, is_critical := decide (ls - es = 0) }
  | _, _ => n

theorem calculate_slack_nodes (g : DependencyGraph) :
    (calculate_slack g).nodes = g.nodes.map (fun p => (p.1, slackFn p.2)) := by
  simp only [calculate_slack, slackFn]
  apply List.map_congr_left
  intro p _
  rcases p.2.latest_start with _ | ls <;> rcases p.2.earliest_start with _ | es <;> simp

theorem calculate_slack_findNode (g : DependencyGraph) (id : String) :
    (calculate_slack g).findNode id = (g.findNode id).map slackFn := by
  have hn : (calculate_slack g).findNode id =
      ({ g with nodes := g.nodes.map (fun p => (p.1, slackFn p.2)) } :
        DependencyGraph).findNode id := by
    simp only [DependencyGraph.findNode, calculate_slack_nodes]
  rw [hn]
  simp only [DependencyGraph.findNode]
  rw [List.find?_map]
  have hcomp : ((fun p : String × DependencyNode => p.1 == id) ∘
      (fun p : String × DependencyNode => (p.1, slackFn p.2))) =
      (fun p : String × DependencyNode => p.1 == id) := rfl
  rw [hcomp]
  rcases hf : g.nodes.find? (fun p => p.1 == id) with _ | p <;> simp [hf]

theorem calculate_slack_keys (g : DependencyGraph) :
    (calculate_slack g).keys = g.keys := by
  simp only [DependencyGraph.keys, calculate_slack_nodes, List.map_map]
  rfl

theorem optLe_total (a b : Option Int) : optLe a b = true ∨ optLe b a = true := by
  rcases a with _ | x <;> rcases b with _ | y <;> simp [optLe] <;> omega

theorem optLe_trans (a b c : Option Int) (h1 : optLe a b = true)
    (h2 : optLe b c = true) : optLe a c = true := by
  rcases a with _ | x <;> rcases b with _ | y <;> rcases c with _ | z <;>
    simp [optLe] at h1 h2 ⊢ <;> omega

/-- Membership in the sorted critical path. -/
theorem mem_find_critical_path {g : DependencyGraph} (hnd : g.keys.Nodup)
    (id : String) : id ∈ find_critical_path g ↔
      ∃ n, g.findNode id = some n ∧ n.is_critical = true := by
  unfold find_critical_path
  rw [mem_insertionSort]
  constructor
  · intro hm
    obtain ⟨p, hp, hp1⟩ := List.mem_map.mp hm
    obtain ⟨hpmem, hpc⟩ := List.mem_filter.mp hp
    refine ⟨p.2, ?_, by simpa using hpc⟩
    rw [← hp1]
    exact findNode_of_mem hnd ((Prod.mk.eta (p := p)) ▸ hpmem)
  · rintro ⟨n, hn, hc⟩
    apply List.mem_map.mpr
    refine ⟨(id, n), List.mem_filter.mpr ⟨findNode_mem hn, by simpa using hc⟩, rfl⟩

theorem forward_pass_ok {g : DependencyGraph} {t : Int} {g1 : DependencyGraph}
    (h : forward_pass g t = .ok g1) :
    ∃ topo, g.topological_sort = .ok topo ∧
      topo.foldlM (forwardVisit t) g = .ok g1 := by
  unfold forward_pass at h
  exact except_bind_ok h

theorem backward_pass_ok {g1 g2 : DependencyGraph} (h : backward_pass g1 = .ok g2) :
    ∃ topo pe, g1.topological_sort = .ok topo ∧
      (g1.nodes.filterMap (fun p => p.2.earliest_finish)).max? = some pe ∧
      topo.reverse.foldlM (backwardVisit pe) g1 = .ok g2 := by
  unfold backward_pass at h
  obtain ⟨topo, h1, h2⟩ := except_bind_ok h
  rcases hm : (g1.nodes.filterMap (fun p => p.2.earliest_finish)).max? with _ | pe
  · rw [hm] at h2
    simp at h2
  · rw [hm] at h2
    exact ⟨topo, pe, h1, hm, h2⟩

theorem calculate_critical_path_ok {g : DependencyGraph} {t : Int}
    {g' : DependencyGraph} (h : calculate_critical_path g t = .ok g') :
    ∃ g1 g2, forward_pass g t = .ok g1 ∧ backward_pass g1 = .ok g2 ∧
      g'.nodes = (calculate_slack g2).nodes ∧
      g'.critical_path = find_critical_path (calculate_slack g2) := by
  unfold calculate_critical_path at h
  by_cases hc : g.has_cycle
  · rw [if_pos hc] at h
    simp at h
  · rw [if_neg hc] at h
    obtain ⟨g1, h1, hrest⟩ := except_bind_ok h
    obtain ⟨g2, h2, hrest2⟩ := except_bind_ok hrest
    refine ⟨g1, g2, h1, h2, ?_⟩
    replace hrest2 : (if (calculate_slack g2).nodes.isEmpty then
        (pure ({ calculate_slack g2 with
          critical_path := find_critical_path (calculate_slack g2) } : DependencyGraph) :
          Except String DependencyGraph)
      else
        match ((calculate_slack g2).nodes.filterMap
            (fun p => p.2.earliest_finish)).max? with
        | none => .error "ValueError: max() arg is an empty sequence"
        | some max_finish =>
          pure { calculate_slack g2 with
            critical_path := find_critical_path (calculate_slack g2),
            total_duration := max_finish - t }) = Except.ok g' := hrest2
    by_cases he : (calculate_slack g2).nodes.isEmpty
    · rw [if_pos he] at hrest2
      have hg' : ({ calculate_slack g2 with
          critical_path := find_critical_path (calculate_slack g2) } :
          DependencyGraph) = g' := by
        simpa [pure, Except.pure] using hrest2
      rw [← hg']
      exact ⟨rfl, rfl⟩
    · rw [if_neg he] at hrest2
      rcases hm : ((calculate_slack g2).nodes.filterMap
          (fun p => p.2.earliest_finish)).max? with _ | m
      · rw [hm] at hrest2
        simp at hrest2
      · rw [hm] at hrest2
        have hg' : ({ calculate_slack g2 with
            critical_path := find_critical_path (calculate_slack g2),
            total_duration := m - t } : DependencyGraph) = g' := by
          simpa [pure, Except.pure] using hrest2
        rw [← hg']
        exact ⟨rfl, rfl⟩

/-- On a node with both `earliest_start` and `latest_start` set, the
slack transformation stores `latest_start - earliest_start` and marks
the node critical exactly when that difference is zero. -/
theorem slackFn_char {n : DependencyNode} (hes : n.earliest_start.isSome = true)
    (hls : n.latest_start.isSome = true) :
    ∃ l e, n.latest_start = some l ∧ n.earliest_start = some e ∧
      (slackFn n).slack = l - e ∧ (slackFn n).is_critical = decide (l - e = 0) := by
  obtain ⟨e, he⟩ := Option.isSome_iff_exists.mp hes
  obtain ⟨l, hl⟩ := Option.isSome_iff_exists.mp hls
  exact ⟨l, e, hl, he, by simp [slackFn, hl, he], by simp [slackFn, hl, he]⟩

/-- In a graph whose keys all carry set earliest/latest fields, every
node found after `_calculate_slack` has its slack and criticality flag
in the stored relationship. -/
theorem calculate_slack_char {g2 : DependencyGraph} {id : String} {n3 : DependencyNode}
    (hsetk : ∀ i ∈ g2.keys, esSet g2 i ∧ lsSet g2 i)
    (hn3 : (calculate_slack g2).findNode id = some n3) :
    ∃ l e, n3.slack = l - e ∧ n3.is_critical = decide (l - e = 0) := by
  rw [calculate_slack_findNode] at hn3
  rcases hn2 : g2.findNode id with _ | n2
  · rw [hn2] at hn3
    simp at hn3
  · rw [hn2] at hn3
    have h32 : slackFn n2 = n3 := by simpa using hn3
    have hidk : id ∈ g2.keys := by
      have hmem := findNode_mem hn2
      simpa [DependencyGraph.keys] using List.mem_map_of_mem Prod.fst hmem
    obtain ⟨hes, hls⟩ := hsetk id hidk
    obtain ⟨m, hm, hmes, _⟩ := hes
    obtain ⟨m2, hm2, hmls, _⟩ := hls
    rw [hn2] at hm hm2
    have hmn : n2 = m := Option.some_injective _ hm
    have hmn2 : n2 = m2 := Option.some_injective _ hm2
    rw [← hmn] at hmes
    rw [← hmn2] at hmls
    obtain ⟨l, e, hl, he, hs, hc⟩ := slackFn_char hmes hmls
    rw [h32] at hs hc
    exact ⟨l, e, hs, hc⟩

/-- After a successful forward and then backward pass, the keys are
unchanged, well-formedness is preserved, and every key carries set
earliest and latest fields. -/
theorem cpm_fields_set {g : DependencyGraph} (hwf : g.WF) {t : Int}
    {g1 g2 : DependencyGraph} (h1 : forward_pass g t = .ok g1)
    (h2 : backward_pass g1 = .ok g2) :
    g2.keys = g.keys ∧ g2.WF ∧ ∀ id ∈ g.keys, esSet g2 id ∧ lsSet g2 id := by
  obtain ⟨topo, ht, hf⟩ := forward_pass_ok h1
  obtain ⟨k1, d1, w1, hpres1, hes1⟩ := forward_fold_props t topo g g1 hf
  have hwf1 : g1.WF := w1 hwf
  obtain ⟨_, tcover, _⟩ := topological_sort_ok_props hwf topo ht
  obtain ⟨topo2, pe, ht2, hm2, hb⟩ := backward_pass_ok h2
  obtain ⟨k2, d2, w2, hespres, hls2⟩ := backward_fold_props pe topo2.reverse g1 g2 hb
  obtain ⟨_, tcover2, _⟩ := topological_sort_ok_props hwf1 topo2 ht2
  refine ⟨k2.trans k1, w2 hwf1, ?_⟩
  intro id hid
  refine ⟨hespres id (hes1 id ((tcover id).mpr hid)), ?_⟩
  apply hls2
  rw [List.mem_reverse]
  apply (tcover2 id).mpr
  rw [k1]
  exact hid

/-- `_find_critical_path` emits ids in ascending order of the
earliest-start sort key. -/
theorem pairwise_find_critical_path (g : DependencyGraph) :
    (find_critical_path g).Pairwise
      (fun a b => optLe (g.esKey a) (g.esKey b) = true) := by
  show (insertionSort (fun a b => optLe (g.esKey a) (g.esKey b))
      ((g.nodes.filter (fun p => p.2.is_critical)).map Prod.fst)).Pairwise
      (fun a b => optLe (g.esKey a) (g.esKey b) = true)
  exact pairwise_insertionSort (fun a b => optLe (g.esKey a) (g.esKey b))
    (fun a b => optLe_total _ _)
    (fun a b c hab hbc => optLe_trans _ _ _ hab hbc) _

/-- C2: after the full CPM pass on a well-formed graph, a node id lies
on the critical path exactly when its node has slack zero, and the
critical path is sorted ascending by the earliest-start key. -/
theorem critical_path_iff_zero_slack {g : DependencyGraph} (hwf : g.WF) (t : Int)
    {g' : DependencyGraph} (h : calculate_critical_path g t = .ok g') :
    (∀ id, id ∈ g'.critical_path ↔ ∃ n, g'.findNode id = some n ∧ n.slack = 0) ∧
    g'.critical_path.Pairwise
      (fun a b => optLe (g'.esKey a) (g'.esKey b) = true) := by
  obtain ⟨g1, g2, h1, h2, hnodes, hcp⟩ := calculate_critical_path_ok h
  obtain ⟨hkeys2, hwf2, hset⟩ := cpm_fields_set hwf h1 h2
  have hsetk : ∀ i ∈ g2.keys, esSet g2 i ∧ lsSet g2 i := by
    intro i hi
    apply hset
    rw [← hkeys2]
    exact hi
  have hfind : ∀ id, g'.findNode id = (calculate_slack g2).findNode id := by
    intro id
    simp [DependencyGraph.findNode, hnodes]
  have heskey : ∀ id, g'.esKey id = (calculate_slack g2).esKey id := by
    intro id
    simp [DependencyGraph.esKey, hfind id]
  have hnd3 : (calculate_slack g2).keys.Nodup := by
    rw [calculate_slack_keys, hkeys2]
    exact hwf.keys_nodup
  constructor
  · intro id
    rw [hcp, mem_find_critical_path hnd3 id]
    constructor
    · rintro ⟨n3, hn3, hc3⟩
      refine ⟨n3, (hfind id).trans hn3, ?_⟩
      obtain ⟨l, e, hs, hc⟩ := calculate_slack_char hsetk hn3
      rw [hc] at hc3
      rw [hs]
      exact of_decide_eq_true hc3
    · rintro ⟨n, hn, hs0⟩
      have hn3 : (calculate_slack g2).findNode id = some n := (hfind id).symm.trans hn
      refine ⟨n, hn3, ?_⟩
      obtain ⟨l, e, hs, hc⟩ := calculate_slack_char hsetk hn3
      rw [hs] at hs0
      rw [hc]
      exact decide_eq_true hs0
  · rw [hcp]
    refine List.Pairwise.imp ?_ (pairwise_find_critical_path (calculate_slack g2))
    intro a b hab
    rw [heskey a, heskey b]
    exact hab

/-- The full CPM result on the two-node witness graph. -/
def gC2res : DependencyGraph :=
  (calculate_critical_path gC3 0).toOption.getD DependencyGraph.empty

/-- C2 witness: the slack/critical-path correspondence instantiated on
the concrete two-node graph. -/
theorem critical_path_iff_zero_slack_witness :
    (∀ id, id ∈ gC2res.critical_path ↔ ∃ n, gC2res.findNode id = some n ∧ n.slack = 0) ∧
    gC2res.critical_path.Pairwise
      (fun a b => optLe (gC2res.esKey a) (gC2res.esKey b) = true) :=
  critical_path_iff_zero_slack
    ⟨by decide, by decide, by decide, by decide, by decide, by decide, by decide, by decide⟩
    0 (show calculate_critical_path gC3 0 = .ok gC2res from rfl)

/-! ### Duplicate dependencies -/

theorem insertOnce_mem_self (l : List String) (x : String) : x ∈ insertOnce l x := by
  unfold insertOnce
  by_cases h : x ∈ l
  · rw [if_pos h]
    exact h
  · rw [if_neg h]
    simp

theorem insertOnce_of_mem {l : List String} {x : String} (h : x ∈ l) :
    insertOnce l x = l := by
  unfold insertOnce
  rw [if_pos h]

/-- Re-adding a successor already in a node's successor set leaves the
node unchanged. -/
theorem node_succ_insert_self (n : DependencyNode) (x : String)
    (hx : x ∈ n.successors) :
    ({ n with successors := insertOnce n.successors x } : DependencyNode) = n := by
  rw [insertOnce_of_mem hx]

/-- Re-adding a predecessor already in a node's predecessor set leaves
the node unchanged. -/
theorem node_pred_insert_self (n : DependencyNode) (x : String)
    (hx : x ∈ n.predecessors) :
    ({ n with predecessors := insertOnce n.predecessors x } : DependencyNode) = n := by
  rw [insertOnce_of_mem hx]

/-- Writing back the node already stored under a key does not change the
node list. -/
theorem nodes_updateNode_self {g : DependencyGraph} (hnd : g.keys.Nodup)
    {id : String} {n : DependencyNode} (h : g.findNode id = some n) :
    (g.updateNode id n).nodes = g.nodes := by
  show g.nodes.map (fun p => if p.1 == id then (p.1, n) else p) = g.nodes
  have hcong : ∀ p ∈ g.nodes, (if p.1 == id then (p.1, n) else p) = p := by
    intro p hp
    rcases p with ⟨a, b⟩
    by_cases hpi : a = id
    · have hfp : g.findNode a = some b := findNode_of_mem hnd hp
      rw [hpi, h] at hfp
      have hbn : n = b := Option.some_injective _ hfp
      simp [hpi, hbn]
    · simp [hpi]
  simpa using List.map_congr_left hcong

/-- Appending an element that already occurs in the list never changes a
first-match lookup. -/
theorem find?_append_one {α : Type} (q : α → Bool) (d : α) (l : List α)
    (h : q d = true → ∃ x ∈ l, q x = true) : (l ++ [d]).find? q = l.find? q := by
  rw [List.find?_append]
  rcases hf : l.find? q with _ | x
  · by_cases hq : q d = true
    · obtain ⟨x, hx, hqx⟩ := h hq
      exact absurd hqx (List.find?_eq_none.mp hf x hx)
    · simp [hq]
  · simp

theorem foldl_congr_fun {α β : Type} {f f' : β → α → β} (h : ∀ b a, f b a = f' b a) :
    ∀ (l : List α) (b : β), l.foldl f b = l.foldl f' b := by
  intro l
  induction l with
  | nil =>
    intro b
    rfl
  | cons a as ih =>
    intro b
    rw [List.foldl_cons, List.foldl_cons, h]
    exact ih _

theorem foldlM_congr_fun {α β : Type} {f f' : β → α → Except String β}
    (h : ∀ b a, f b a = f' b a) :
    ∀ (l : List α) (b : β), l.foldlM f b = l.foldlM f' b := by
  intro l
  induction l with
  | nil =>
    intro b
    rfl
  | cons a as ih =>
    intro b
    rw [List.foldlM_cons, List.foldlM_cons, h]
    rcases hg : f' b a with e | b'
    · rfl
    · exact ih b'

/-! Congruence: every traversal reads the graph only through its node
list and the first-match edge lookup. -/

theorem findNode_congr {ga gb : DependencyGraph} (hn : ga.nodes = gb.nodes)
    (id : String) : ga.findNode id = gb.findNode id := by
  simp [DependencyGraph.findNode, hn]

theorem nodeSuccs_congr {ga gb : DependencyGraph} (hn : ga.nodes = gb.nodes)
    (id : String) : ga.nodeSuccs id = gb.nodeSuccs id := by
  simp [DependencyGraph.nodeSuccs, findNode_congr hn]

theorem dfsVisit_congr {ga gb : DependencyGraph} (hn : ga.nodes = gb.nodes) :
    ∀ (fuel : Nat) (colors : String → Color) (id : String),
      dfsVisit ga fuel colors id = dfsVisit gb fuel colors id := by
  intro fuel
  induction fuel with
  | zero =>
    intro colors id
    rfl
  | succ fuel ih =>
    intro colors id
    simp only [dfsVisit]
    cases hc : colors id with
    | gray => rfl
    | black => rfl
    | white =>
      have hfold : (ga.nodeSuccs id).foldl
          (fun acc s => if acc.1 then acc else dfsVisit ga fuel acc.2 s)
          (false, fun x => if x = id then Color.gray else colors x) =
          (gb.nodeSuccs id).foldl
          (fun acc s => if acc.1 then acc else dfsVisit gb fuel acc.2 s)
          (false, fun x => if x = id then Color.gray else colors x) := by
        rw [nodeSuccs_congr hn]
        apply foldl_congr_fun
        intro b a
        rw [ih]
      rw [hfold]

theorem has_cycle_congr {ga gb : DependencyGraph} (hn : ga.nodes = gb.nodes) :
    ga.has_cycle = gb.has_cycle := by
  unfold DependencyGraph.has_cycle
  have hkeys : ga.keys = gb.keys := by
    simp [DependencyGraph.keys, hn]
  rw [hkeys]
  have hfold : ∀ (l : List String) (acc : Bool × (String → Color)),
      l.foldl (fun acc id =>
        if acc.1 then acc
        else if acc.2 id = Color.white then dfsVisit ga (ga.nodes.length + 1) acc.2 id
        else acc) acc =
      l.foldl (fun acc id =>
        if acc.1 then acc
        else if acc.2 id = Color.white then dfsVisit gb (gb.nodes.length + 1) acc.2 id
        else acc) acc := by
    intro l acc
    apply foldl_congr_fun
    intro b a
    rw [hn, dfsVisit_congr hn]
  rw [hfold]

theorem kahnLoop_congr {ga gb : DependencyGraph} (hn : ga.nodes = gb.nodes) :
    ∀ (fuel : Nat) (queue : List String) (deg : List (String × Int)) (res : List String),
      kahnLoop ga fuel queue deg res = kahnLoop gb fuel queue deg res := by
  intro fuel
  induction fuel with
  | zero =>
    intro queue deg res
    cases queue <;> rfl
  | succ fuel ih =>
    intro queue deg res
    cases queue with
    | nil => rfl
    | cons q rest =>
      simp only [kahnLoop]
      rw [nodeSuccs_congr hn, ih]

theorem topological_sort_congr {ga gb : DependencyGraph} (hn : ga.nodes = gb.nodes) :
    ga.topological_sort = gb.topological_sort := by
  simp only [DependencyGraph.topological_sort, has_cycle_congr hn, hn, kahnLoop_congr hn]

theorem forwardES_congr {ga gb : DependencyGraph} (hn : ga.nodes = gb.nodes)
    (hd : ∀ p s, ga.findDep p s = gb.findDep p s) (t : Int) (a : String)
    (node : DependencyNode) : forwardES t ga a node = forwardES t gb a node := by
  unfold forwardES
  by_cases hne : node.predecessors.isEmpty
  · simp only [if_pos hne]
  · simp only [if_neg hne]
    apply foldlM_congr_fun
    intro acc pid
    rw [findNode_congr hn, hd]

theorem backwardLF_congr {ga gb : DependencyGraph} (hn : ga.nodes = gb.nodes)
    (hd : ∀ p s, ga.findDep p s = gb.findDep p s) (pe : Int) (a : String)
    (node : DependencyNode) : backwardLF pe ga a node = backwardLF pe gb a node := by
  unfold backwardLF
  by_cases hne : node.successors.isEmpty
  · simp only [if_pos hne]
  · simp only [if_neg hne]
    apply foldlM_congr_fun
    intro acc sid
    rw [findNode_congr hn, hd]

theorem forwardVisit_congr {ga gb : DependencyGraph} (hn : ga.nodes = gb.nodes)
    (hd : ∀ p s, ga.findDep p s = gb.findDep p s) (t : Int) (a : String) :
    (∃ e, forwardVisit t ga a = .error e ∧ forwardVisit t gb a = .error e) ∨
    (∃ ga' gb', forwardVisit t ga a = .ok ga' ∧ forwardVisit t gb a = .ok gb' ∧
      ga'.nodes = gb'.nodes ∧ ∀ p s, ga'.findDep p s = gb'.findDep p s) := by
  rcases hna : ga.findNode a with _ | node
  · have hnb : gb.findNode a = none := by
      rw [← findNode_congr hn, hna]
    have hea : forwardVisit t ga a = .error "KeyError" := by
      unfold forwardVisit
      rw [hna]
    have heb : forwardVisit t gb a = .error "KeyError" := by
      unfold forwardVisit
      rw [hnb]
    exact Or.inl ⟨_, hea, heb⟩
  · have hnb : gb.findNode a = some node := by
      rw [← findNode_congr hn, hna]
    have hea : forwardVisit t ga a = (forwardES t ga a node).bind (fun es =>
        .ok (ga.updateNode a
          { node with
            earliest_start := some es
            earliest_finish := some (es + node.total_duration) })) := by
      unfold forwardVisit
      rw [hna]
    have heb : forwardVisit t gb a = (forwardES t gb a node).bind (fun es =>
        .ok (gb.updateNode a
          { node with
            earliest_start := some es
            earliest_finish := some (es + node.total_duration) })) := by
      unfold forwardVisit
      rw [hnb]
    rw [hea, heb, forwardES_congr hn hd t a node]
    rcases he : forwardES t gb a node with e | es
    · exact Or.inl ⟨e, rfl, rfl⟩
    · refine Or.inr ⟨_, _, rfl, rfl, ?_, ?_⟩
      · simp [DependencyGraph.updateNode, hn]
      · intro p s
        simpa [DependencyGraph.findDep, DependencyGraph.updateNode] using hd p s

theorem backwardVisit_congr {ga gb : DependencyGraph} (hn : ga.nodes = gb.nodes)
    (hd : ∀ p s, ga.findDep p s = gb.findDep p s) (pe : Int) (a : String) :
    (∃ e, backwardVisit pe ga a = .error e ∧ backwardVisit pe gb a = .error e) ∨
    (∃ ga' gb', backwardVisit pe ga a = .ok ga' ∧ backwardVisit pe gb a = .ok gb' ∧
      ga'.nodes = gb'.nodes ∧ ∀ p s, ga'.findDep p s = gb'.findDep p s) := by
  rcases hna : ga.findNode a with _ | node
  · have hnb : gb.findNode a = none := by
      rw [← findNode_congr hn, hna]
    have hea : backwardVisit pe ga a = .error "KeyError" := by
      unfold backwardVisit
      rw [hna]
    have heb : backwardVisit pe gb a = .error "KeyError" := by
      unfold backwardVisit
      rw [hnb]
    exact Or.inl ⟨_, hea, heb⟩
  · have hnb : gb.findNode a = some node := by
      rw [← findNode_congr hn, hna]
    have hea : backwardVisit pe ga a = (backwardLF pe ga a node).bind (fun lf =>
        .ok (ga.updateNode a
          { node with
            latest_finish := some lf
            latest_start := some (lf - node.total_duration) })) := by
      unfold backwardVisit
      rw [hna]
    have heb : backwardVisit pe gb a = (backwardLF pe gb a node).bind (fun lf =>
        .ok (gb.updateNode a
          { node with
            latest_finish := some lf
            latest_start := some (lf - node.total_duration) })) := by
      unfold backwardVisit
      rw [hnb]
    rw [hea, heb, backwardLF_congr hn hd pe a node]
    rcases he : backwardLF pe gb a node with e | lf
    · exact Or.inl ⟨e, rfl, rfl⟩
    · refine Or.inr ⟨_, _, rfl, rfl, ?_, ?_⟩
      · simp [DependencyGraph.updateNode, hn]
      · intro p s
        simpa [DependencyGraph.findDep, DependencyGraph.updateNode] using hd p s

theorem forward_fold_congr (t : Int) : ∀ (topo : List String) (ga gb : DependencyGraph),
    ga.nodes = gb.nodes → (∀ p s, ga.findDep p s = gb.findDep p s) →
    (∃ e, topo.foldlM (forwardVisit t) ga = .error e ∧
      topo.foldlM (forwardVisit t) gb = .error e) ∨
    (∃ ga' gb', topo.foldlM (forwardVisit t) ga = .ok ga' ∧
      topo.foldlM (forwardVisit t) gb = .ok gb' ∧
      ga'.nodes = gb'.nodes ∧ ∀ p s, ga'.findDep p s = gb'.findDep p s) := by
  intro topo
  induction topo with
  | nil =>
    intro ga gb hn hd
    exact Or.inr ⟨ga, gb, rfl, rfl, hn, hd⟩
  | cons a rest ih =>
    intro ga gb hn hd
    rw [List.foldlM_cons, List.foldlM_cons]
    rcases forwardVisit_congr hn hd t a with ⟨e, hea, heb⟩ | ⟨ga1, gb1, hoa, hob, hn1, hd1⟩
    · rw [hea, heb]
      exact Or.inl ⟨e, rfl, rfl⟩
    · rw [hoa, hob]
      exact ih ga1 gb1 hn1 hd1

theorem backward_fold_congr (pe : Int) : ∀ (topo : List String) (ga gb : DependencyGraph),
    ga.nodes = gb.nodes → (∀ p s, ga.findDep p s = gb.findDep p s) →
    (∃ e, topo.foldlM (backwardVisit pe) ga = .error e ∧
      topo.foldlM (backwardVisit pe) gb = .error e) ∨
    (∃ ga' gb', topo.foldlM (backwardVisit pe) ga = .ok ga' ∧
      topo.foldlM (backwardVisit pe) gb = .ok gb' ∧
      ga'.nodes = gb'.nodes ∧ ∀ p s, ga'.findDep p s = gb'.findDep p s) := by
  intro topo
  induction topo with
  | nil =>
    intro ga gb hn hd
    exact Or.inr ⟨ga, gb, rfl, rfl, hn, hd⟩
  | cons a rest ih =>
    intro ga gb hn hd
    rw [List.foldlM_cons, List.foldlM_cons]
    rcases backwardVisit_congr hn hd pe a with ⟨e, hea, heb⟩ | ⟨ga1, gb1, hoa, hob, hn1, hd1⟩
    · rw [hea, heb]
      exact Or.inl ⟨e, rfl, rfl⟩
    · rw [hoa, hob]
      exact ih ga1 gb1 hn1 hd1

theorem forward_pass_congr {ga gb : DependencyGraph} (hn : ga.nodes = gb.nodes)
    (hd : ∀ p s, ga.findDep p s = gb.findDep p s) (t : Int) :
    (forward_pass ga t).map DependencyGraph.nodes =
      (forward_pass gb t).map DependencyGraph.nodes := by
  unfold forward_pass
  rw [topological_sort_congr hn]
  rcases ht : gb.topological_sort with e | topo
  · rfl
  · rcases forward_fold_congr t topo ga gb hn hd with ⟨e, hea, heb⟩ | ⟨ga', gb', hoa, hob, hn', _⟩
    · show (topo.foldlM (forwardVisit t) ga).map DependencyGraph.nodes =
        (topo.foldlM (forwardVisit t) gb).map DependencyGraph.nodes
      rw [hea, heb]
    · show (topo.foldlM (forwardVisit t) ga).map DependencyGraph.nodes =
        (topo.foldlM (forwardVisit t) gb).map DependencyGraph.nodes
      rw [hoa, hob]
      simp [Except.map, hn']

theorem backward_pass_congr {ga gb : DependencyGraph} (hn : ga.nodes = gb.nodes)
    (hd : ∀ p s, ga.findDep p s = gb.findDep p s) :
    (backward_pass ga).map DependencyGraph.nodes =
      (backward_pass gb).map DependencyGraph.nodes := by
  unfold backward_pass
  simp only [topological_sort_congr hn, hn]
  rcases ht : gb.topological_sort with e | topo
  · rfl
  · show ((match (gb.nodes.filterMap
        (fun p : String × DependencyNode => p.2.earliest_finish)).max? with
      | none => (.error "ValueError: max() arg is an empty sequence" :
          Except String DependencyGraph)
      | some project_end =>
        topo.reverse.foldlM (backwardVisit project_end) ga)).map DependencyGraph.nodes =
      ((match (gb.nodes.filterMap
        (fun p : String × DependencyNode => p.2.earliest_finish)).max? with
      | none => (.error "ValueError: max() arg is an empty sequence" :
          Except String DependencyGraph)
      | some project_end =>
        topo.reverse.foldlM (backwardVisit project_end) gb)).map DependencyGraph.nodes
    rcases hm : (gb.nodes.filterMap
        (fun p : String × DependencyNode => p.2.earliest_finish)).max? with _ | pe
    · rfl
    · rcases backward_fold_congr pe topo.reverse ga gb hn hd with
        ⟨e, hea, heb⟩ | ⟨ga', gb', hoa, hob, hn', _⟩
      · show (topo.reverse.foldlM (backwardVisit pe) ga).map DependencyGraph.nodes =
          (topo.reverse.foldlM (backwardVisit pe) gb).map DependencyGraph.nodes
        rw [hea, heb]
      · show (topo.reverse.foldlM (backwardVisit pe) ga).map DependencyGraph.nodes =
          (topo.reverse.foldlM (backwardVisit pe) gb).map DependencyGraph.nodes
        rw [hoa, hob]
        simp [Except.map, hn']

/-- C10: adding the same dependency a second time raises no error; it
appends a second copy of the edge to the dependency list, leaves every
node's predecessor/successor set unchanged, and the forward and backward
passes — which read edges only through the first-match lookup `findDep`
— compute the same node fields as before, silently ignoring the
duplicate. -/
theorem add_dependency_duplicate (g : DependencyGraph) (d : Dependency)
    (hnd : g.keys.Nodup) {g1 : DependencyGraph}
    (h1 : g.add_dependency d = .ok g1) :
    ∃ g2, g1.add_dependency d = .ok g2 ∧
      g2.nodes = g1.nodes ∧
      g2.dependencies = g1.dependencies ++ [d] ∧
      (∀ p s, g2.findDep p s = g1.findDep p s) ∧
      (∀ t, (forward_pass g2 t).map DependencyGraph.nodes =
        (forward_pass g1 t).map DependencyGraph.nodes) ∧
      (backward_pass g2).map DependencyGraph.nodes =
        (backward_pass g1).map DependencyGraph.nodes := by
  have h0 := h1
  simp only [DependencyGraph.add_dependency] at h0
  by_cases hv : d.validate = []
  · rw [if_neg (by simp [hv])] at h0
    rcases hpn : g.findNode d.predecessor_id with _ | pn
    · rw [hpn] at h0
      simp at h0
    · rw [hpn] at h0
      rcases hsn : g.findNode d.successor_id with _ | sn
      · rw [hsn] at h0
        simp at h0
      · have hne : d.predecessor_id ≠ d.successor_id := by
          intro he
          unfold Dependency.validate at hv
          rw [if_pos he] at hv
          simp at hv
        have hokE := add_dependency_ok g d hv pn sn hpn hsn hne
        rw [hokE] at h1
        have hg1 : g1 = _ := (Except.ok.inj h1).symm
        subst hg1
        set P : DependencyNode :=
          { pn with successors := insertOnce pn.successors d.successor_id } with hP
        set S : DependencyNode :=
          { sn with predecessors := insertOnce sn.predecessors d.predecessor_id } with hS
        set gd : DependencyGraph :=
          { g with dependencies := g.dependencies ++ [d] } with hgd
        set E1 : DependencyGraph :=
          (gd.updateNode d.predecessor_id P).updateNode d.successor_id S with hE
        have hkE : E1.keys = g.keys := by
          rw [hE, keys_updateNode, keys_updateNode, hgd]
          rfl
        have hdE : E1.dependencies = g.dependencies ++ [d] := by
          rw [hE, dependencies_updateNode, dependencies_updateNode, hgd]
        have hgdp : gd.findNode d.predecessor_id = some pn := hpn
        have hgds : gd.findNode d.successor_id = some sn := hsn
        have hp1 : E1.findNode d.predecessor_id = some P := by
          rw [hE, findNode_updateNode_other _ _ _ _ hne, findNode_updateNode_self, hgdp]
          simp
        have hs1 : E1.findNode d.successor_id = some S := by
          rw [hE, findNode_updateNode_self,
            findNode_updateNode_other _ _ _ _ (fun hh => hne hh.symm), hgds]
          simp
        have hok2 := add_dependency_ok E1 d hv P S hp1 hs1 hne
        have hP2 : ({ P with successors := insertOnce P.successors d.successor_id } :
            DependencyNode) = P :=
          node_succ_insert_self P d.successor_id
            (insertOnce_mem_self pn.successors d.successor_id)
        have hS2 : ({ S with predecessors := insertOnce S.predecessors d.predecessor_id } :
            DependencyNode) = S :=
          node_pred_insert_self S d.predecessor_id
            (insertOnce_mem_self sn.predecessors d.predecessor_id)
        rw [hP2, hS2] at hok2
        set E2 : DependencyGraph :=
          (({ E1 with dependencies := E1.dependencies ++ [d] } :
            DependencyGraph).updateNode d.predecessor_id P).updateNode
            d.successor_id S with hE2
        have hndE1 : E1.keys.Nodup := by
          rw [hkE]
          exact hnd
        have h1d : ({ E1 with dependencies := E1.dependencies ++ [d] } :
            DependencyGraph).keys.Nodup := hndE1
        have hPfind : ({ E1 with dependencies := E1.dependencies ++ [d] } :
            DependencyGraph).findNode d.predecessor_id = some P := hp1
        have hXk : (({ E1 with dependencies := E1.dependencies ++ [d] } :
            DependencyGraph).updateNode d.predecessor_id P).keys.Nodup := by
          rw [keys_updateNode]
          exact h1d
        have hXs : (({ E1 with dependencies := E1.dependencies ++ [d] } :
            DependencyGraph).updateNode d.predecessor_id P).findNode
            d.successor_id = some S := by
          rw [findNode_updateNode_other _ _ _ _ (fun hh => hne hh.symm)]
          exact hs1
        have hnodes2 : E2.nodes = E1.nodes := by
          rw [hE2, nodes_updateNode_self hXk hXs, nodes_updateNode_self h1d hPfind]
        have hdeps2 : E2.dependencies = E1.dependencies ++ [d] := by
          rw [hE2, dependencies_updateNode, dependencies_updateNode]
        have hdmem : d ∈ E1.dependencies := by
          rw [hdE]
          exact List.mem_append_right _ (by simp)
        have hfd2 : ∀ p s, E2.findDep p s = E1.findDep p s := by
          intro p s
          simp only [DependencyGraph.findDep]
          rw [hdeps2]
          apply find?_append_one
          intro hq
          exact ⟨d, hdmem, hq⟩
        exact ⟨E2, hok2, hnodes2, hdeps2, hfd2,
          fun t => forward_pass_congr hnodes2 hfd2 t,
          backward_pass_congr hnodes2 hfd2⟩
  · rw [if_pos (by simpa using hv)] at h0
    simp at h0

/-- The finish-to-start edge of the witness graph. -/
def dxy : Dependency :=
  { predecessor_id := "x", successor_id := "y", dependency_type := "finish_to_start" }

/-- C10 witness: adding the `"x"` → `"y"` edge a second time on the
concrete two-node graph. -/
theorem add_dependency_duplicate_witness :
    ∃ g2, gC3.add_dependency dxy = .ok g2 ∧
      g2.nodes = gC3.nodes ∧
      g2.dependencies = gC3.dependencies ++ [dxy] ∧
      (∀ p s, g2.findDep p s = gC3.findDep p s) ∧
      (∀ t, (forward_pass g2 t).map DependencyGraph.nodes =
        (forward_pass gC3 t).map DependencyGraph.nodes) ∧
      (backward_pass g2).map DependencyGraph.nodes =
        (backward_pass gC3).map DependencyGraph.nodes :=
  add_dependency_duplicate xyGraph dxy (by decide)
    (show xyGraph.add_dependency dxy = .ok gC3 from rfl)

/-! ### Day packing -/

/-- The summed footprint of a day's activities. -/
def footSum (l : List TimedActivity) : Int :=
  (l.map TimedActivity.footprint).sum

theorem footSum_append (l : List TimedActivity) (x : TimedActivity) :
    footSum (l ++ [x]) = footSum l + x.footprint := by
  simp [footSum]

theorem footSum_singleton (x : TimedActivity) : footSum [x] = x.footprint := by
  simp [footSum]

/-- The loop invariant of `_schedule_activities_to_days`: the clock sits
at or past the day start plus the running day's footprint, the running
day fits the window once nonempty, and every emitted day fits the
window. -/
def SchedInv (W tod : Int) (st : SchedState) : Prop :=
  1440 * st.current_date + tod + footSum st.daily_activities ≤ st.current_time ∧
  (st.daily_activities = [] ∨ footSum st.daily_activities ≤ W) ∧
  ∀ day ∈ st.timeline_days, footSum day.activities ≤ W

theorem schedule_known_inv (ctx : TimelineGenerationContext)
    {ta : TimedActivity} (hfpta : ta.footprint ≤ 60 * ctx.daily_schedule_hours)
    {st : SchedState}
    (hinv : SchedInv (60 * ctx.daily_schedule_hours) ctx.start_time_tod st) :
    SchedInv (60 * ctx.daily_schedule_hours) ctx.start_time_tod
      (schedule_known ctx st ta) := by
  obtain ⟨hct, hdaOr, hdays⟩ := hinv
  simp only [TimedActivity.footprint] at hfpta
  simp only [schedule_known, TimelineGenerationContext.get_daily_end_time]
  by_cases hov : st.current_time + (ta.activity.setup_time + ta.activity.duration +
      ta.activity.cleanup_time + ta.buffer_before + ta.buffer_after) >
      1440 * st.current_date + ctx.start_time_tod + 60 * ctx.daily_schedule_hours
  · rw [if_pos hov]
    refine ⟨?_, ?_, ?_⟩
    · simp only [List.nil_append, footSum_singleton, TimedActivity.footprint]
      omega
    · apply Or.inr
      simp only [List.nil_append, footSum_singleton, TimedActivity.footprint]
      omega
    · intro day hday
      by_cases hde : st.daily_activities = []
      · rw [if_neg (by simpa using hde)] at hday
        exact hdays day hday
      · rw [if_pos hde] at hday
        rcases List.mem_append.mp hday with hm | hm
        · exact hdays day hm
        · have hdc := List.mem_singleton.mp hm
          rw [hdc]
          simpa using hdaOr.resolve_left hde
  · rw [if_neg hov]
    refine ⟨?_, ?_, ?_⟩
    · simp only [footSum_append, TimedActivity.footprint]
      omega
    · apply Or.inr
      simp only [footSum_append, TimedActivity.footprint]
      omega
    · intro day hday
      exact hdays day hday

theorem schedule_fold_inv (ctx : TimelineGenerationContext) (tas : List TimedActivity)
    (hfp : ∀ ta ∈ tas, ta.footprint ≤ 60 * ctx.daily_schedule_hours) :
    ∀ (l : List String) (st : SchedState),
      SchedInv (60 * ctx.daily_schedule_hours) ctx.start_time_tod st →
      SchedInv (60 * ctx.daily_schedule_hours) ctx.start_time_tod
        (l.foldl (schedule_step ctx tas) st) := by
  intro l
  induction l with
  | nil =>
    intro st h
    exact h
  | cons a as ih =>
    intro st h
    rw [List.foldl_cons]
    apply ih
    unfold schedule_step
    rcases hla : lastWithId tas a with _ | ta
    · exact h
    · show SchedInv (60 * ctx.daily_schedule_hours) ctx.start_time_tod
        (schedule_known ctx st ta)
      have h1 : tas.reverse.find? (fun x => x.activity.id == a) = some ta := hla
      have h2 := List.mem_of_find?_eq_some h1
      exact schedule_known_inv ctx (hfp ta (List.mem_reverse.mp h2)) h

/-- C4 amended: when the start datetime sits on the start date and every
timed activity's footprint fits the daily window, every emitted
`TimelineDay` fits the window; without the per-activity bound the packer
can emit an overfull day (see the counterexample). -/
theorem schedule_days_bounded (timed_activities : List TimedActivity)
    (g : DependencyGraph) (ctx : TimelineGenerationContext)
    (hstart : ctx.start_time_day = ctx.start_date)
    (hfp : ∀ ta ∈ timed_activities, ta.footprint ≤ 60 * ctx.daily_schedule_hours)
    {days : List TimelineDay}
    (h : schedule_activities_to_days timed_activities g ctx = .ok days) :
    ∀ day ∈ days, footSum day.activities ≤ 60 * ctx.daily_schedule_hours := by
  unfold schedule_activities_to_days at h
  obtain ⟨topo, ht, h2⟩ := except_bind_ok h
  have hinv0 : SchedInv (60 * ctx.daily_schedule_hours) ctx.start_time_tod
      { timeline_days := [], day_number := 1, current_date := ctx.start_date,
        current_time := ctx.start_time, daily_activities := [], daily_cost := 0 } := by
    refine ⟨?_, Or.inl rfl, ?_⟩
    · simp only [footSum, List.map_nil, List.sum_nil,
        TimelineGenerationContext.start_time, hstart]
      omega
    · intro day hday
      simp at hday
  have hinv := schedule_fold_inv ctx timed_activities hfp topo _ hinv0
  obtain ⟨hct, hdaOr, hdays⟩ := hinv
  have h2o : (Except.ok _ : Except String (List TimelineDay)) = Except.ok days := h2
  have hde := Except.ok.inj h2o
  rw [← hde]
  intro day hday
  by_cases hc : (topo.foldl (schedule_step ctx timed_activities)
      { timeline_days := [], day_number := 1, current_date := ctx.start_date,
        current_time := ctx.start_time, daily_activities := [],
        daily_cost := 0 }).daily_activities = []
  · rw [if_neg (by simpa using hc)] at hday
    exact hdays day hday
  · rw [if_pos hc] at hday
    rcases List.mem_append.mp hday with hm | hm
    · exact hdays day hm
    · have hdc := List.mem_singleton.mp hm
      rw [hdc]
      simpa using hdaOr.resolve_left hc

/-- The oversized activity of the C4 counterexample: a 13-hour footprint
against a 12-hour daily window. -/
def actC4 : Activity :=
  { id := "a1"
    name := "Big"
    activity_type := .ceremony
    duration := 780
    priority := .medium }

/-- The oversized activity, timed. -/
def taC4 : TimedActivity :=
  { activity := actC4
    start_time := 0
    end_time := 0 }

/-- A single-node graph holding the oversized activity. -/
def gC4 : DependencyGraph :=
  { nodes := [("a1", { activity := actC4 })] }

/-- A generation context starting 09:00 on day 0 with the default
12-hour window. -/
def ctxC4 : TimelineGenerationContext :=
  { event_context := {}
    start_date := 0
    start_time_day := 0
    start_time_tod := 540 }

/-- The packed days for the oversized activity. -/
def daysC4 : List TimelineDay :=
  (schedule_activities_to_days [taC4] gC4 ctxC4).toOption.getD []

/-- C4 counterexample: an activity whose footprint exceeds the daily
window is still scheduled into a single emitted day, whose summed
footprint then exceeds the window. -/
theorem schedule_day_overflow :
    taC4.footprint = 780 ∧ 60 * ctxC4.daily_schedule_hours = 720 ∧
    schedule_activities_to_days [taC4] gC4 ctxC4 = .ok daysC4 ∧
    ∃ day ∈ daysC4, 60 * ctxC4.daily_schedule_hours < footSum day.activities := by
  refine ⟨rfl, rfl, rfl, ?_⟩
  decide

/-- A small activity fitting the daily window, for the C4 witness. -/
def actC4w : Activity :=
  { id := "a1"
    name := "Small"
    activity_type := .ceremony
    duration := 60
    priority := .medium }

/-- The small activity, timed. -/
def taC4w : TimedActivity :=
  { activity := actC4w
    start_time := 0
    end_time := 0 }

/-- The packed days for the small activity. -/
def daysC4w : List TimelineDay :=
  (schedule_activities_to_days [taC4w] gC4 ctxC4).toOption.getD []

/-- C4 witness: the bounded-packing theorem on the concrete small
activity, instantiated at the single emitted day. -/
theorem schedule_days_bounded_witness :
    ∃ day, daysC4w = [day] ∧
      footSum day.activities ≤ 60 * ctxC4.daily_schedule_hours := by
  refine ⟨_, rfl, ?_⟩
  exact schedule_days_bounded [taC4w] gC4 ctxC4 rfl (by decide)
    (show schedule_activities_to_days [taC4w] gC4 ctxC4 = .ok daysC4w from rfl)
    _ (List.mem_singleton.mpr rfl)

/-! ### Vendor conflicts -/

/-- An activity requiring vendor `"v"`. -/
def actC5 (idn nm : String) : Activity :=
  { id := idn
    name := nm
    activity_type := .ceremony
    duration := 10
    priority := .medium
    required_vendors := ["v"] }

/-- A scheduled node requiring vendor `"v"`, finishing at time 10. -/
def nodeC5 (idn nm : String) (es : Int) : DependencyNode :=
  { activity := actC5 idn nm
    earliest_start := some es
    earliest_finish := some 10 }

/-- Three activities sharing vendor `"v"` with pairwise-overlapping
windows. -/
def gC5 : DependencyGraph :=
  { nodes := [("a1", nodeC5 "a1" "A1" 0), ("a2", nodeC5 "a2" "A2" 1),
      ("a3", nodeC5 "a3" "A3" 2)] }

/-- C5 counterexample: all three pairs overlap on vendor `"v"`, but only
the two adjacent pairs of the sorted order are reported; the overlapping
pair `A1`/`A3` yields no conflict entry. -/
theorem resolve_conflicts_misses_pair :
    (gC5.findNode "a1" = some (nodeC5 "a1" "A1" 0) ∧
     gC5.findNode "a3" = some (nodeC5 "a3" "A3" 2) ∧
     "v" ∈ (nodeC5 "a1" "A1" 0).activity.required_vendors ∧
     "v" ∈ (nodeC5 "a3" "A3" 2).activity.required_vendors ∧
     (nodeC5 "a1" "A1" 0).earliest_finish = some 10 ∧
     (nodeC5 "a3" "A3" 2).earliest_start = some 2) ∧
    resolve_conflicts gC5 =
      ["Vendor \'v\' conflict between activities \'A1\' and \'A2\'",
       "Vendor \'v\' conflict between activities \'A2\' and \'A3\'"] ∧
    "Vendor \'v\' conflict between activities \'A1\' and \'A3\'" ∉
      resolve_conflicts gC5 := by
  refine ⟨⟨rfl, rfl, by decide, by decide, rfl, rfl⟩, rfl, ?_⟩
  decide

/-- C5 amended: for exactly two scheduled activities sharing one vendor
whose windows overlap (the later-starting one beginning strictly before
the earlier one finishes), `resolve_conflicts` returns exactly one
conflict entry naming both activity names and the vendor. The
all-pairs phrasing fails for three or more activities (see the
counterexample): only adjacent pairs of the sorted order are scanned. -/
theorem resolve_conflicts_two_overlap (g : DependencyGraph) (i1 i2 : String)
    (n1 n2 : DependencyNode) (v : String) (e1 e2 f1 : Int)
    (hg : g.nodes = [(i1, n1), (i2, n2)])
    (hv1 : n1.activity.required_vendors = [v])
    (hv2 : n2.activity.required_vendors = [v])
    (hsc1 : n1.successors = []) (hsc2 : n2.successors = [])
    (hsl1 : 0 ≤ n1.slack) (hsl2 : 0 ≤ n2.slack)
    (he1 : n1.earliest_start = some e1) (he2 : n2.earliest_start = some e2)
    (hf1 : n1.earliest_finish = some f1)
    (hlt : e1 < e2) (hover : e2 < f1) :
    resolve_conflicts g =
      ["Vendor \'" ++ v ++ "\' conflict between activities \'" ++
        n1.activity.name ++ "\' and \'" ++ n2.activity.name ++ "\'"] := by
  have hnoedge : ∀ x y, ¬ g.Edge x y := by
    rintro x y ⟨n, hn, hy⟩
    have hmem := findNode_mem hn
    rw [hg] at hmem
    rcases List.mem_cons.mp hmem with h | h
    · have hn1 : n = n1 := congrArg Prod.snd h
      rw [hn1, hsc1] at hy
      simp at hy
    · rcases List.mem_cons.mp h with h2 | h2
      · have hn2 : n = n2 := congrArg Prod.snd h2
        rw [hn2, hsc2] at hy
        simp at hy
      · simp at h2
  have hcyc : g.has_cycle = false := by
    apply has_cycle_false_of_acyclic
    intro a hta
    cases hta with
    | single h => exact hnoedge _ _ h
    | tail h1 h2 => exact hnoedge _ _ h2
  have hc1 : ¬(n1.slack ≠ 0 ∧ n1.slack < 0) := by omega
  have hc2 : ¬(n2.slack ≠ 0 ∧ n2.slack < 0) := by omega
  have hVG : vendorGroups g = [(v, [(i1, n1), (i2, n2)])] := by
    unfold vendorGroups
    rw [hg]
    simp [hv1, hv2, groupAdd]
  have hord : optLe n2.earliest_start n1.earliest_start = false := by
    rw [he1, he2]
    simp only [optLe, decide_eq_false_iff_not]
    omega
  have hCRC : check_resource_conflicts g =
      ["Vendor \'" ++ v ++ "\' conflict between activities \'" ++
        n1.activity.name ++ "\' and \'" ++ n2.activity.name ++ "\'"] := by
    unfold check_resource_conflicts
    rw [hVG]
    simp only [List.foldl_cons, List.foldl_nil]
    have hlen : ([(i1, n1), (i2, n2)] : List (String × DependencyNode)).length > 1 := by
      simp
    rw [if_pos hlen]
    have hsort : insertionSort
        (fun a b : String × DependencyNode => optLe a.2.earliest_start b.2.earliest_start)
        [(i1, n1), (i2, n2)] = [(i1, n1), (i2, n2)] := by
      simp [insertionSort, insertSorted, hord]
    rw [hsort]
    simp [adjacentConflicts, hf1, he2, hover]
  unfold resolve_conflicts
  rw [hcyc, hg]
  simp [hc1, hc2, hCRC]

/-- Two overlapping activities sharing vendor `"v"`. -/
def gC5w : DependencyGraph :=
  { nodes := [("a1", nodeC5 "a1" "A1" 0), ("a2", nodeC5 "a2" "A2" 1)] }

/-- C5 witness: the two-activity vendor-overlap theorem on the concrete
graph. -/
theorem resolve_conflicts_two_overlap_witness :
    resolve_conflicts gC5w =
      ["Vendor \'" ++ "v" ++ "\' conflict between activities \'" ++
        (nodeC5 "a1" "A1" 0).activity.name ++ "\' and \'" ++
        (nodeC5 "a2" "A2" 1).activity.name ++ "\'"] :=
  resolve_conflicts_two_overlap gC5w "a1" "a2" (nodeC5 "a1" "A1" 0)
    (nodeC5 "a2" "A2" 1) "v" 0 1 10 rfl rfl rfl rfl rfl (by decide) (by decide)
    rfl rfl rfl (by decide) (by decide)

end Plano
